import Mathlib

/-!
# Verification of the endfield-tool production-graph solver

A shallow embedding of the solver pipeline in
`src/lib/calculator.ts` (the bipartite-graph / SCC pipeline: the second
document of that file, exporting `calculateProductionPlan`), together
with the capacity-pool contract used by the flow mappers.

Modelling conventions:
* JavaScript numbers are modelled as `ℚ` (the solver uses only field
  operations and comparisons).
* `Map` is modelled as an association list (`List (k × v)`); `Map.set`
  replaces the value in place for an existing key and appends otherwise,
  which matches insertion-order iteration of JS maps.  `Set` is modelled
  as a `List` with append-if-absent insertion.
* Thrown exceptions are modelled with `Except String`; a non-null
  assertion (`!`) that would make JS dereference `undefined` is modelled
  as an `Except.error` with an "Internal error" message.
* General recursion (graph traversal, Tarjan, Kahn's queue) is modelled
  with an explicit fuel argument; running out of fuel yields the
  distinguished error `fuelMsg`.  The callers pass fuel bounds that are
  proved (or, for the concrete evaluations, checked) sufficient.
-/

namespace EndfieldCalc

abbrev ItemId := String
abbrev RecipeId := String
abbrev FacilityId := String

/-- One `{itemId, amount}` entry of a recipe's `inputs`/`outputs` lists. -/
structure Stack where
  itemId : ItemId
  amount : ℚ
deriving DecidableEq, Repr

structure Item where
  id : ItemId
  tier : Int
deriving DecidableEq, Repr

structure Recipe where
  id : RecipeId
  inputs : List Stack
  outputs : List Stack
  craftingTime : ℚ
  facilityId : FacilityId
deriving DecidableEq, Repr

structure Facility where
  id : FacilityId
  powerConsumption : ℚ
deriving DecidableEq, Repr

structure Target where
  itemId : ItemId
  rate : ℚ
deriving DecidableEq, Repr

/-! ## Association-list model of JS `Map` and `Set` -/

/-- First-match lookup, as JS `Map.get`. -/
def lookupA {α β : Type} [DecidableEq α] : List (α × β) → α → Option β
  | [], _ => none
  | (k, v) :: rest, key => if k = key then some v else lookupA rest key

/-- JS `map.get(k) ?? d` / `map.get(k) || d` for a numeric default. -/
def getDA {α β : Type} [DecidableEq α] (m : List (α × β)) (k : α) (d : β) : β :=
  (lookupA m k).getD d

/-- JS `Map.set`: replace in place when the key exists, append otherwise. -/
def setA {α β : Type} [DecidableEq α] : List (α × β) → α → β → List (α × β)
  | [], key, v => [(key, v)]
  | (k, v') :: rest, key, v =>
    if k = key then (key, v) :: rest else (k, v') :: setA rest key v

/-- JS `new Map(entries)`: insert every entry in order. -/
def mkMapA {α β : Type} [DecidableEq α] (entries : List (α × β)) : List (α × β) :=
  entries.foldl (fun m e => setA m e.1 e.2) []

/-- JS `Set.add`: append if absent (insertion order preserved). -/
def insertS {α : Type} [DecidableEq α] (s : List α) (x : α) : List α :=
  if s.contains x then s else s ++ [x]

structure ProductionMaps where
  itemMap : List (ItemId × Item)
  recipeMap : List (RecipeId × Recipe)
  facilityMap : List (FacilityId × Facility)

/-! ### Arithmetic wrappers

JS arithmetic on numbers is modelled by the following operations on `ℚ`.
They are defined through `Rat.divInt` so that closed runs of the pipeline
evaluate inside the kernel; each is proved equal to the corresponding
standard operation (`qadd_eq` …), which the behavioural proofs use.
Division by zero yields `0` (the totalised field convention). -/

def qadd (a b : ℚ) : ℚ := Rat.divInt (a.num * b.den + b.num * a.den) (a.den * b.den)

def qsub (a b : ℚ) : ℚ := Rat.divInt (a.num * b.den - b.num * a.den) (a.den * b.den)

def qmul (a b : ℚ) : ℚ := Rat.divInt (a.num * b.num) (a.den * b.den)

def qdiv (a b : ℚ) : ℚ := Rat.divInt (a.num * b.den) (a.den * b.num)

/-- JS `Math.max`. -/
def qmax (a b : ℚ) : ℚ := if a ≤ b then b else a

/-- JS `Math.min`. -/
def qmin (a b : ℚ) : ℚ := if a ≤ b then a else b

/-- JS `Math.abs`. -/
def qabs (a : ℚ) : ℚ := if a < 0 then -a else a


/-- The error raised when an explicit fuel bound is exhausted; the fuel
bounds used by the pipeline are large enough that this never fires (for
the tree assembler this is proved, see the termination theorem). -/
def fuelMsg : String := "fuel exhausted"

/-- `getOrThrow(map, key, type)` of the source: `Except.error` replaces the
thrown `Error` with the same message text. -/
def getOrThrow {β : Type} (m : List (String × β)) (key : String)
    (ty : String) : Except String β :=
  match lookupA m key with
  | some v => Except.ok v
  | none => Except.error (ty ++ " not found: " ++ key)

/-- Effectful map over a list in the `Except` monad (the JS `array.map`
with element-wise failure propagation). -/
def mapE {α β : Type} (f : α → Except String β) : List α → Except String (List β)
  | [] => .ok []
  | a :: t =>
    match f a with
    | .error e => .error e
    | .ok b =>
      match mapE f t with
      | .error e => .error e
      | .ok bs => .ok (b :: bs)

/-- `calcRate(amount, craftingTime) = amount * 60 / craftingTime`. -/
def calcRate (amount craftingTime : ℚ) : ℚ :=
  qdiv (qmul amount 60) craftingTime

/-! ## Linear solver

Modelled from the spec: the pipeline imports `solveLinearSystem` from
`./linear-solver`, whose source file is not among the provided sources.
Per §4.4 the solve is a generic linear solve (Gaussian elimination with
pivoting) that returns the solution vector, or null when the system has
no solution; per §9 it assumes a square system and leaves non-square
systems unhandled (modelled as no solution). -/

/-- Dot product of coefficient and solution vectors. -/
def dotQ (xs ys : List ℚ) : ℚ :=
  (List.zipWith qmul xs ys).foldl qadd 0

/-- Split off the first row whose leading coefficient is non-zero
(pivot search), returning it together with the remaining rows. -/
def findPivot : List (List ℚ × ℚ) → Option ((List ℚ × ℚ) × List (List ℚ × ℚ))
  | [] => none
  | row :: rest =>
    if row.1.headD 0 ≠ 0 then some (row, rest)
    else
      match findPivot rest with
      | some (p, others) => some (p, row :: others)
      | none => none

/-- Subtract the right multiple of the pivot row from a row, eliminating
its leading coefficient; both rows lose that leading column. -/
def elimRow (pivot : List ℚ × ℚ) (row : List ℚ × ℚ) : List ℚ × ℚ :=
  let p := pivot.1.headD 0
  let a := row.1.headD 0
  let f := qdiv a p
  (List.zipWith (fun x y => qsub x (qmul f y)) row.1.tail pivot.1.tail,
   qsub row.2 (qmul f pivot.2))

/-- Gaussian elimination with back substitution over `ℚ`, by recursion on
the number of variables.  Returns `none` when no pivot can be found
(singular system). -/
def gaussSolve : Nat → List (List ℚ × ℚ) → Option (List ℚ)
  | 0, rows => if rows.all (fun r => r.2 = 0) then some [] else none
  | k + 1, rows =>
    match findPivot rows with
    | none => none
    | some (pivot, others) =>
      match gaussSolve k (others.map (elimRow pivot)) with
      | none => none
      | some xs =>
        some (qdiv (qsub pivot.2 (dotQ pivot.1.tail xs)) (pivot.1.headD 0) :: xs)

/-- Modelled from the spec: `solveLinearSystem(matrix, constants)` of the
missing `./linear-solver` module — Gaussian elimination with pivoting over
an `n × n` system, `null` (here `none`) when there is no solution, and
non-square input unhandled (here `none`). -/
def solveLinearSystem (matrix : List (List ℚ)) (constants : List ℚ) :
    Option (List ℚ) :=
  let n := matrix.length
  if constants.length = n ∧ matrix.all (fun row => row.length = n) then
    gaussSolve n (matrix.zip constants)
  else
    none

/-! ## Phase 1: bipartite graph construction (`buildBipartiteGraph`) -/

structure ItemNode where
  itemId : ItemId
  item : Item
  isRawMaterial : Bool
deriving DecidableEq, Repr

structure RecipeNodeData where
  recipeId : RecipeId
  recipe : Recipe
  facility : Facility
  outputItemIds : List ItemId
deriving DecidableEq, Repr

structure BipartiteGraph where
  itemNodes : List (ItemId × ItemNode)
  recipeNodes : List (RecipeId × RecipeNodeData)
  itemConsumedBy : List (ItemId × List RecipeId)
  itemProducedBy : List (ItemId × RecipeId)
  recipeInputs : List (RecipeId × List ItemId)
  recipeOutput : List (RecipeId × List ItemId)
  targets : List ItemId
  rawMaterials : List ItemId
deriving DecidableEq, Repr

/-- `RecipeSelector`: the JS function may return `undefined` on an empty
candidate list, modelled with `Option`. -/
abbrev RecipeSelector := List Recipe → List ItemId → Option Recipe

def defaultRecipeSelector : RecipeSelector := fun recipes _ => recipes.head?

def smartRecipeSelector : RecipeSelector := fun recipes visitedPath =>
  if visitedPath.isEmpty then defaultRecipeSelector recipes []
  else
    let nonCircular := recipes.filter
      (fun r => ¬ r.inputs.any (fun input => visitedPath.contains input.itemId))
    if nonCircular.length > 0 then nonCircular.head? else recipes.head?

/-- JS `new Set(list)`: deduplicate keeping first occurrences. -/
def dedupS {α : Type} [DecidableEq α] (l : List α) : List α :=
  l.foldl insertS []

structure BuildState where
  graph : BipartiteGraph
  visitedItems : List ItemId

/-- The recursive `traverse` closure of `buildBipartiteGraph`.  The
`forcedRawMaterials` argument stands for the identically-named set the
source imports from its game-data module. -/
def traverse (maps : ProductionMaps) (recipeOverrides : List (ItemId × RecipeId))
    (recipeSelector : RecipeSelector) (manualRawMaterials : List ItemId)
    (forcedRawMaterials : List ItemId) :
    Nat → ItemId → BuildState → Except String BuildState
  | 0, _, _ => .error fuelMsg
  | fuel + 1, itemId, st₀ =>
    if st₀.visitedItems.contains itemId then .ok st₀
    else
      let st := { st₀ with visitedItems := insertS st₀.visitedItems itemId }
      match getOrThrow maps.itemMap itemId "Item" with
      | .error e => .error e
      | .ok item =>
        let isRaw := forcedRawMaterials.contains itemId
          || manualRawMaterials.contains itemId
        let g := { st.graph with
          itemNodes := setA st.graph.itemNodes itemId ⟨itemId, item, isRaw⟩ }
        if isRaw then
          .ok { st with graph :=
            { g with rawMaterials := insertS g.rawMaterials itemId } }
        else
          let availableRecipes := (maps.recipeMap.map Prod.snd).filter
            (fun r => r.outputs.any (fun o => o.itemId = itemId))
          if availableRecipes.isEmpty then
            .ok { st with graph :=
              { g with itemNodes := setA g.itemNodes itemId ⟨itemId, item, true⟩,
                       rawMaterials := insertS g.rawMaterials itemId } }
          else
            let selected : Except String Recipe :=
              match lookupA recipeOverrides itemId with
              | some rid => getOrThrow maps.recipeMap rid "Override recipe"
              | none =>
                match recipeSelector availableRecipes [itemId] with
                | some r => .ok r
                | none => .error "Internal error: recipe selector returned no recipe"
            match selected with
            | .error e => .error e
            | .ok selectedRecipe =>
              match getOrThrow maps.facilityMap selectedRecipe.facilityId "Facility" with
              | .error e => .error e
              | .ok facility =>
                let g :=
                  if (lookupA g.recipeNodes selectedRecipe.id).isSome then g
                  else
                    let outputItemIds := dedupS (selectedRecipe.outputs.map (·.itemId))
                    { g with
                      recipeNodes := setA g.recipeNodes selectedRecipe.id
                        ⟨selectedRecipe.id, selectedRecipe, facility, outputItemIds⟩,
                      recipeOutput := setA g.recipeOutput selectedRecipe.id outputItemIds,
                      recipeInputs := setA g.recipeInputs selectedRecipe.id [] }
                let g := { g with
                  itemProducedBy := setA g.itemProducedBy itemId selectedRecipe.id }
                selectedRecipe.inputs.foldlM
                  (fun st' input =>
                    let g' := st'.graph
                    let g' := { g' with
                      recipeInputs := setA g'.recipeInputs selectedRecipe.id
                        (insertS (getDA g'.recipeInputs selectedRecipe.id []) input.itemId),
                      itemConsumedBy := setA g'.itemConsumedBy input.itemId
                        (insertS (getDA g'.itemConsumedBy input.itemId []) selectedRecipe.id) }
                    traverse maps recipeOverrides recipeSelector manualRawMaterials
                      forcedRawMaterials fuel input.itemId { st' with graph := g' })
                  { st with graph := g }

def buildBipartiteGraph (targets : List Target) (maps : ProductionMaps)
    (recipeOverrides : List (ItemId × RecipeId)) (recipeSelector : RecipeSelector)
    (manualRawMaterials : List ItemId) (forcedRawMaterials : List ItemId) :
    Except String BipartiteGraph := do
  let graph₀ : BipartiteGraph :=
    { itemNodes := [], recipeNodes := [], itemConsumedBy := [],
      itemProducedBy := [], recipeInputs := [], recipeOutput := [],
      targets := dedupS (targets.map (·.itemId)), rawMaterials := [] }
  let st ← targets.foldlM
    (fun st t => traverse maps recipeOverrides recipeSelector manualRawMaterials
      forcedRawMaterials (maps.itemMap.length + 2) t.itemId st)
    ⟨graph₀, []⟩
  return st.graph

/-! ## Phase 2: SCC detection (`detectSCCs`, Tarjan's algorithm) -/

structure SCCInfo where
  id : String
  items : List ItemId
  recipes : List RecipeId
  externalInputs : List ItemId
deriving DecidableEq, Repr

inductive NType where
  | item
  | recipe
deriving DecidableEq, Repr

structure TarjanState where
  sccs : List SCCInfo
  indices : List (String × Nat)
  lowlinks : List (String × Nat)
  onStack : List String
  stack : List String
  index : Nat

def successors (graph : BipartiteGraph) (nodeId : String) :
    NType → List (String × NType)
  | .item => (getDA graph.itemConsumedBy nodeId []).map (fun rid => (rid, .recipe))
  | .recipe => (getDA graph.recipeOutput nodeId []).map (fun iid => (iid, .item))

/-- The do/while pop loop of `strongConnect`: pop down to and including
`nodeId`, returning the popped prefix and the remaining stack. -/
def popUntil : List String → String → List String × List String
  | [], _ => ([], [])
  | w :: rest, nodeId =>
    if w = nodeId then ([w], rest)
    else
      let (popped, remaining) := popUntil rest nodeId
      (w :: popped, remaining)

/-- Lexicographic comparison of character lists by code point, as JS string
comparison (the ids sorted here are ASCII, where code-point and UTF-16
orders agree). -/
def charsLe : List Char → List Char → Bool
  | [], _ => true
  | _ :: _, [] => false
  | a :: as, b :: bs =>
    if a.val.toNat < b.val.toNat then true
    else if b.val.toNat < a.val.toNat then false
    else charsLe as bs

def strLe (a b : String) : Bool := charsLe a.data b.data

def insertSorted (x : String) : List String → List String
  | [] => [x]
  | y :: rest => if strLe x y then x :: y :: rest else y :: insertSorted x rest

/-- JS `array.sort()` on string arrays: lexicographic sort. -/
def sortStrings (l : List String) : List String := l.foldr insertSorted []

def strongConnect (graph : BipartiteGraph) :
    Nat → String → NType → TarjanState → Except String TarjanState
  | 0, _, _, _ => .error fuelMsg
  | fuel + 1, nodeId, ntype, st₀ => do
    let st := { st₀ with
      indices := setA st₀.indices nodeId st₀.index,
      lowlinks := setA st₀.lowlinks nodeId st₀.index,
      index := st₀.index + 1,
      stack := nodeId :: st₀.stack,
      onStack := insertS st₀.onStack nodeId }
    let st ← (successors graph nodeId ntype).foldlM
      (fun st succ =>
        if (lookupA st.indices succ.1).isNone then do
          let st ← strongConnect graph fuel succ.1 succ.2 st
          let low := min (getDA st.lowlinks nodeId 0) (getDA st.lowlinks succ.1 0)
          pure { st with lowlinks := setA st.lowlinks nodeId low }
        else if st.onStack.contains succ.1 then
          let low := min (getDA st.lowlinks nodeId 0) (getDA st.indices succ.1 0)
          pure { st with lowlinks := setA st.lowlinks nodeId low }
        else pure st)
      st
    if getDA st.lowlinks nodeId 0 = getDA st.indices nodeId 0 then
      let (popped, remaining) := popUntil st.stack nodeId
      let onStack' := st.onStack.filter (fun w => ¬ popped.contains w)
      let sccItems := popped.filter (fun w => (lookupA graph.itemNodes w).isSome)
      let sccRecipes := popped.filter (fun w => (lookupA graph.itemNodes w).isNone)
      if sccItems.length + sccRecipes.length > 1 then
        let externalInputs := sccRecipes.foldl
          (fun ext rid =>
            (getDA graph.recipeInputs rid []).foldl
              (fun ext iid => if sccItems.contains iid then ext else insertS ext iid)
              ext)
          []
        let newScc : SCCInfo :=
          ⟨"scc-" ++ String.intercalate "-" (sortStrings sccItems),
            sccItems, sccRecipes, externalInputs⟩
        pure { st with stack := remaining, onStack := onStack',
                       sccs := st.sccs ++ [newScc] }
      else
        pure { st with stack := remaining, onStack := onStack' }
    else
      pure st

def detectSCCs (graph : BipartiteGraph) : Except String (List SCCInfo) := do
  let st₀ : TarjanState := ⟨[], [], [], [], [], 0⟩
  let st ← graph.itemNodes.foldlM
    (fun st p =>
      if (lookupA st.indices p.1).isNone then
        strongConnect graph (graph.itemNodes.length + graph.recipeNodes.length + 1)
          p.1 .item st
      else pure st)
    st₀
  return st.sccs

/-! ## Phase 3: condensed DAG and topological sort -/

inductive CondensedNode where
  | item (itemId : ItemId)
  | recipe (recipeId : RecipeId)
  | scc (scc : SCCInfo)
deriving DecidableEq, Repr

/-- Kahn's queue loop.  In-degrees are `Int` because the JS decrement can
run below zero, and only an exact hit of `0` enqueues. -/
def kahnLoop (condensedNodes : List (String × CondensedNode))
    (condensedEdges : List (String × List String)) :
    Nat → List String → List (String × Int) → List CondensedNode →
    Except String (List CondensedNode)
  | _, [], _, acc => .ok acc
  | 0, _ :: _, _, _ => .error fuelMsg
  | fuel + 1, nodeId :: queue, inDeg, acc =>
    match lookupA condensedNodes nodeId, lookupA condensedEdges nodeId with
    | some node, some outs =>
      let step := outs.foldl
        (fun (acc : List (String × Int) × List String) t =>
          let d := getDA acc.1 t 0 - 1
          (setA acc.1 t d, if d = 0 then acc.2 ++ [t] else acc.2))
        (inDeg, [])
      kahnLoop condensedNodes condensedEdges fuel (queue ++ step.2) step.1
        (acc ++ [node])
    | _, _ => .error "Internal error: condensed node not found"

def buildCondensedDAGAndSort (graph : BipartiteGraph) (sccs : List SCCInfo) :
    Except String (List CondensedNode) := do
  let nodeToSCC : List (String × String) := sccs.foldl
    (fun m scc =>
      let m := scc.items.foldl (fun m iid => setA m iid scc.id) m
      scc.recipes.foldl (fun m rid => setA m rid scc.id) m)
    []
  let condensedNodes : List (String × CondensedNode) :=
    let m := sccs.foldl (fun m scc => setA m scc.id (CondensedNode.scc scc)) []
    let m := graph.itemNodes.foldl
      (fun m p => if (lookupA nodeToSCC p.1).isSome then m
        else setA m p.1 (CondensedNode.item p.1)) m
    graph.recipeNodes.foldl
      (fun m p => if (lookupA nodeToSCC p.1).isSome then m
        else setA m p.1 (CondensedNode.recipe p.1)) m
  let condensedEdges₀ : List (String × List String) :=
    condensedNodes.map (fun p => (p.1, []))
  let addEdge : List (String × List String) → String → String →
      Except String (List (String × List String)) := fun edges fromId toId =>
    let fromC := getDA nodeToSCC fromId fromId
    let toC := getDA nodeToSCC toId toId
    if fromC = toC then .ok edges
    else match lookupA edges fromC with
      | some s => .ok (setA edges fromC (insertS s toC))
      | none => .error "Internal error: condensed edge source not found"
  let condensedEdges ← graph.itemConsumedBy.foldlM
    (fun edges p => p.2.foldlM (fun edges rid => addEdge edges p.1 rid) edges)
    condensedEdges₀
  let condensedEdges ← graph.recipeOutput.foldlM
    (fun edges p => p.2.foldlM (fun edges iid => addEdge edges p.1 iid) edges)
    condensedEdges
  let inDeg₀ : List (String × Int) := condensedNodes.map (fun p => (p.1, 0))
  let inDeg := condensedEdges.foldl
    (fun deg p => p.2.foldl (fun deg t => setA deg t (getDA deg t 0 + 1)) deg)
    inDeg₀
  let queue := (inDeg.filter (fun p => p.2 = 0)).map (·.1)
  let fuel := condensedNodes.length +
    2 * (condensedEdges.map (fun p => p.2.length)).sum + 2
  kahnLoop condensedNodes condensedEdges fuel queue inDeg []

/-! ## Phase 4: demand flow (`calculateFlows`, `solveSCCFlow`)

`console.warn` calls are collected in `warnings`; `console.log` calls
are pure tracing and are not modelled. -/

structure FlowState where
  itemDemands : List (ItemId × ℚ)
  recipeFacilityCounts : List (RecipeId × ℚ)
  warnings : List String
deriving DecidableEq, Repr

/-- One step of the primary-output fold: keep the output when its
per-minute rate strictly exceeds the best rate so far. -/
def primaryStep (craftingTime : ℚ) (acc : Option ItemId × ℚ)
    (output : Stack) : Option ItemId × ℚ :=
  let rate := calcRate output.amount craftingTime
  if rate > acc.2 then (some output.itemId, rate) else acc

/-- The primary-output fold of the recipe-vertex branch: scan the outputs,
keeping the first output whose per-minute rate strictly exceeds the best
rate so far (initially `0`, with no output selected). -/
def primarySelect (outputs : List Stack) (craftingTime : ℚ) :
    Option ItemId × ℚ :=
  outputs.foldl (primaryStep craftingTime) (none, 0)

/-- The recipe-vertex branch of `calculateFlows`: select the primary output,
derive the facility count from its accumulated demand, then add each
input's consumption to the demand map. -/
def applyRecipeVertex (recipe : Recipe) (recipeId : RecipeId)
    (st : FlowState) : FlowState :=
  let sel := primarySelect recipe.outputs recipe.craftingTime
  let outputDemand := match sel.1 with
    | some iid => getDA st.itemDemands iid 0
    | none => 0
  let facilityCount := if sel.2 > 0 then qdiv outputDemand sel.2 else 0
  let counts := setA st.recipeFacilityCounts recipeId facilityCount
  let demands := recipe.inputs.foldl
    (fun d input => setA d input.itemId
      (qadd (getDA d input.itemId 0) (qmul (calcRate input.amount recipe.craftingTime) facilityCount)))
    st.itemDemands
  { st with itemDemands := demands, recipeFacilityCounts := counts }

/-- The external-demand gathering loop of `solveSCCFlow`: for every SCC
item, demand from consumer recipes outside the SCC (at their solved
facility counts), plus the accumulated demand-map entry when the item is
a target. -/
def sccExternalDemands (scc : SCCInfo) (graph : BipartiteGraph)
    (maps : ProductionMaps) (st : FlowState) :
    Except String (List (ItemId × ℚ)) :=
  scc.items.foldlM
    (fun ed itemId => do
      let demand ← match lookupA graph.itemConsumedBy itemId with
        | none => pure (0 : ℚ)
        | some consumers =>
          consumers.foldlM
            (fun acc rid =>
              if scc.recipes.contains rid then pure acc
              else do
                let facilityCount := getDA st.recipeFacilityCounts rid 0
                let recipe ← match lookupA maps.recipeMap rid with
                  | some r => Except.ok r
                  | none => Except.error "Internal error: recipe not found"
                match recipe.inputs.find? (fun i => i.itemId = itemId) with
                | some input =>
                  pure (qadd acc (qmul (calcRate input.amount recipe.craftingTime) facilityCount))
                | none => pure acc)
            (0 : ℚ)
      let demand := if graph.targets.contains itemId
        then qadd demand (getDA st.itemDemands itemId 0) else demand
      pure (if demand > 0 then setA ed itemId demand else ed))
    []

/-- The coefficient matrix of the SCC linear system: one row per SCC item,
one column per SCC recipe, cell = per-minute output rate − per-minute
input rate of that item by that recipe. -/
def sccMatrix (itemsList : List ItemId) (recipesList : List Recipe) :
    List (List ℚ) :=
  itemsList.map (fun itemId => recipesList.map (fun recipe =>
    let output := ((recipe.outputs.find? (fun o => o.itemId = itemId)).map
      (·.amount)).getD 0
    let input := ((recipe.inputs.find? (fun i => i.itemId = itemId)).map
      (·.amount)).getD 0
    qsub (qdiv (qmul output 60) recipe.craftingTime)
      (qdiv (qmul input 60) recipe.craftingTime)))

def solveSCCFlow (scc : SCCInfo) (graph : BipartiteGraph)
    (maps : ProductionMaps) (st : FlowState) : Except String FlowState := do
  let externalDemands ← sccExternalDemands scc graph maps st
  if externalDemands.isEmpty then return st
  let itemsList := scc.items
  let recipesList ← mapE (fun rid =>
    match lookupA maps.recipeMap rid with
    | some r => Except.ok r
    | none => Except.error "Internal error: recipe not found") scc.recipes
  let n := itemsList.length
  let m := recipesList.length
  if m = 0 ∨ n = 0 then return st
  let matrix := sccMatrix itemsList recipesList
  let constants := itemsList.map (fun itemId => getDA externalDemands itemId 0)
  match solveLinearSystem matrix constants with
  | none =>
    return { st with warnings := st.warnings ++ ["Cannot solve SCC " ++ scc.id] }
  | some solution =>
    let counts := recipesList.enum.foldl
      (fun c p => setA c p.2.id (qmax 0 (solution.getD p.1 0)))
      st.recipeFacilityCounts
    let demands ← scc.externalInputs.foldlM
      (fun d inputItemId => do
        let total ← scc.recipes.foldlM
          (fun acc rid => do
            let recipe ← match lookupA maps.recipeMap rid with
              | some r => Except.ok r
              | none => Except.error "Internal error: recipe not found"
            let facilityCount := getDA counts rid 0
            match recipe.inputs.find? (fun i => i.itemId = inputItemId) with
            | some input =>
              pure (qadd acc (qmul (calcRate input.amount recipe.craftingTime) facilityCount))
            | none => pure acc)
          (0 : ℚ)
        pure (if total > 0
          then setA d inputItemId (qadd (getDA d inputItemId 0) total) else d))
      st.itemDemands
    return { st with itemDemands := demands, recipeFacilityCounts := counts }

def processCondensedNode (graph : BipartiteGraph) (maps : ProductionMaps)
    (st : FlowState) : CondensedNode → Except String FlowState
  | .scc scc => solveSCCFlow scc graph maps st
  | .recipe recipeId =>
    match lookupA graph.recipeNodes recipeId with
    | none => .error "Internal error: recipe node not found"
    | some recipeData => .ok (applyRecipeVertex recipeData.recipe recipeId st)
  | .item _ => .ok st

def calculateFlows (graph : BipartiteGraph) (condensedOrder : List CondensedNode)
    (targetRates : List (ItemId × ℚ)) (maps : ProductionMaps) :
    Except String FlowState :=
  let st₀ : FlowState :=
    { itemDemands := targetRates.foldl (fun d p => setA d p.1 p.2) [],
      recipeFacilityCounts := [], warnings := [] }
  condensedOrder.reverse.foldlM (processCondensedNode graph maps) st₀

/-! ## Phase 5: production-node tree (`convertToProductionNodeTree`) -/

inductive ProductionNode where
  | mk : Item → ℚ → Option Recipe → Option Facility → ℚ → Bool → Bool →
      List ProductionNode → Bool → Option ItemId → ProductionNode

namespace ProductionNode

def item : ProductionNode → Item
  | .mk i _ _ _ _ _ _ _ _ _ => i

def targetRate : ProductionNode → ℚ
  | .mk _ r _ _ _ _ _ _ _ _ => r

def recipe : ProductionNode → Option Recipe
  | .mk _ _ r _ _ _ _ _ _ _ => r

def facility : ProductionNode → Option Facility
  | .mk _ _ _ f _ _ _ _ _ _ => f

def facilityCount : ProductionNode → ℚ
  | .mk _ _ _ _ c _ _ _ _ _ => c

def isRawMaterial : ProductionNode → Bool
  | .mk _ _ _ _ _ b _ _ _ _ => b

def isTarget : ProductionNode → Bool
  | .mk _ _ _ _ _ _ b _ _ _ => b

def dependencies : ProductionNode → List ProductionNode
  | .mk _ _ _ _ _ _ _ d _ _ => d

def isCyclePlaceholder : ProductionNode → Bool
  | .mk _ _ _ _ _ _ _ _ b _ => b

def cycleItemId : ProductionNode → Option ItemId
  | .mk _ _ _ _ _ _ _ _ _ c => c

end ProductionNode

/-- `DetectedCycle`; `breakPointItemId` is an `Option` because the source
takes `Array.from(scc.items)[0]`, which is `undefined` for an item-free
SCC.  `netOutputs` is the map of net extractable outputs per item. -/
structure DetectedCycle where
  cycleId : String
  involvedItemIds : List ItemId
  breakPointItemId : Option ItemId
  cycleNodes : List ProductionNode
  netOutputs : List (ItemId × ℚ)

/-- The recursive `buildNode` closure of `convertToProductionNodeTree`. -/
def buildNode (graph : BipartiteGraph) (flowData : FlowState)
    (maps : ProductionMaps) :
    Nat → ItemId → List ItemId → Bool → Option ℚ → Except String ProductionNode
  | 0, _, _, _, _ => .error fuelMsg
  | fuel + 1, itemId, visitedPath, isDirectTarget, parentDemand => do
    let item ← getOrThrow maps.itemMap itemId "Item"
    let demand := parentDemand.getD (getDA flowData.itemDemands itemId 0)
    if visitedPath.contains itemId then
      return .mk item demand none none 0 false false [] true (some itemId)
    else
      match lookupA graph.itemNodes itemId with
      | none => return .mk item demand none none 0 true isDirectTarget [] false none
      | some itemNode =>
        if itemNode.isRawMaterial then
          return .mk item demand none none 0 true isDirectTarget [] false none
        else
          match lookupA graph.itemProducedBy itemId with
          | none => return .mk item demand none none 0 true isDirectTarget [] false none
          | some producerRecipeId => do
            let recipeData ← match lookupA graph.recipeNodes producerRecipeId with
              | some d => Except.ok d
              | none => Except.error "Internal error: recipe node not found"
            let facilityCount := getDA flowData.recipeFacilityCounts producerRecipeId 0
            let newVisitedPath := insertS visitedPath itemId
            let dependencies ← mapE
              (fun input =>
                let inputDemand :=
                  qmul (calcRate input.amount recipeData.recipe.craftingTime) facilityCount
                buildNode graph flowData maps fuel input.itemId newVisitedPath
                  false (some inputDemand))
              recipeData.recipe.inputs
            let nodeTargetRate ← match parentDemand with
              | some d => pure d
              | none =>
                if isDirectTarget then pure demand
                else
                  match recipeData.recipe.outputs.find? (fun o => o.itemId = itemId) with
                  | some o =>
                    pure (qmul (calcRate o.amount recipeData.recipe.craftingTime) facilityCount)
                  | none => Except.error "Internal error: output not found"
            return .mk item nodeTargetRate (some recipeData.recipe)
              (some recipeData.facility) facilityCount false isDirectTarget
              dependencies false none

def convertToProductionNodeTree (graph : BipartiteGraph) (flowData : FlowState)
    (targets : List Target) (sccs : List SCCInfo) (maps : ProductionMaps) :
    Except String (List ProductionNode × List DetectedCycle) := do
  let rootNodes ← mapE
    (fun t => buildNode graph flowData maps (maps.itemMap.length + 1)
      t.itemId [] true (some t.rate))
    targets
  let detectedCycles ← mapE
    (fun scc => do
      let cycleNodes ← mapE
        (fun recipeId => do
          let recipeData ← match lookupA graph.recipeNodes recipeId with
            | some d => Except.ok d
            | none => Except.error "Internal error: recipe node not found"
          let facilityCount := getDA flowData.recipeFacilityCounts recipeId 0
          let primaryOutputItemId ← match recipeData.outputItemIds.head? with
            | some iid => Except.ok iid
            | none => Except.error "Internal error: recipe has no outputs"
          let output ← match recipeData.recipe.outputs.find?
              (fun o => o.itemId = primaryOutputItemId) with
            | some o => Except.ok o
            | none => Except.error "Internal error: output not found"
          let itemNode ← match lookupA graph.itemNodes primaryOutputItemId with
            | some nd => Except.ok nd
            | none => Except.error "Internal error: item node not found"
          pure (ProductionNode.mk itemNode.item
            (qmul (calcRate output.amount recipeData.recipe.craftingTime) facilityCount)
            (some recipeData.recipe) (some recipeData.facility) facilityCount
            false false [] false none))
        scc.recipes
      pure { cycleId := scc.id, involvedItemIds := scc.items,
             breakPointItemId := scc.items.head?, cycleNodes := cycleNodes,
             netOutputs := ([] : List (ItemId × ℚ)) })
    sccs
  return (rootNodes, detectedCycles)

/-- The exported result shape (`ProductionDependencyGraph` of the typings). -/
structure ProductionDependencyGraph where
  dependencyRootNodes : List ProductionNode
  detectedCycles : List DetectedCycle

/-- The solve entry point `calculateProductionPlan` of the pipeline.  The
`forcedRawMaterials` argument stands for the identically-named game-data
constant threaded into `buildBipartiteGraph`. -/
def calculateProductionPlan (targets : List Target) (items : List Item)
    (recipes : List Recipe) (facilities : List Facility)
    (recipeOverrides : List (ItemId × RecipeId)) (recipeSelector : RecipeSelector)
    (manualRawMaterials : List ItemId) (forcedRawMaterials : List ItemId) :
    Except String ProductionDependencyGraph := do
  if targets.length = 0 then throw "No targets specified"
  let maps : ProductionMaps :=
    { itemMap := mkMapA (items.map (fun i => (i.id, i))),
      recipeMap := mkMapA (recipes.map (fun r => (r.id, r))),
      facilityMap := mkMapA (facilities.map (fun f => (f.id, f))) }
  let graph ← buildBipartiteGraph targets maps recipeOverrides recipeSelector
    manualRawMaterials forcedRawMaterials
  let sccs ← detectSCCs graph
  let condensedOrder ← buildCondensedDAGAndSort graph sccs
  let targetRatesMap := mkMapA (targets.map (fun t => (t.itemId, t.rate)))
  let flowData ← calculateFlows graph condensedOrder targetRatesMap maps
  let result ← convertToProductionNodeTree graph flowData targets sccs maps
  return { dependencyRootNodes := result.1, detectedCycles := result.2 }

/-! ## Facility instance allocator (capacity pool)

Modelled from the spec: the flow mappers (`separated-mapper.ts`) import
`CapacityPoolManager` from `./capacity-pool`, whose source file is not
among the provided sources.  §4.5 of the spec fixes the contract:
`createPool` materialises a continuous facility count `c` into
`n = ceil(c)` instances, all at one full facility's output rate except
the last, which carries the fractional remainder `(c − floor(c))` of a
full rate when `c` is non-integral; `allocate` greedily draws the
requested demand from the instances in index order, consuming each
instance's remaining capacity permanently. -/

structure FacilityInstance where
  facilityIndex : Nat
  maxOutputRate : ℚ
  actualOutputRate : ℚ
deriving DecidableEq, Repr

/-- Modelled from the spec: `createPool` for a node with facility count `c`
whose facility produces `fullRate` per minute at full load. -/
def createPool (c fullRate : ℚ) : List FacilityInstance :=
  let n := (⌈c⌉).toNat
  (List.range n).map (fun i =>
    if i + 1 = n ∧ ¬((⌊c⌋ : ℚ) = c) then
      ⟨i, fullRate, qmul (qsub c (⌊c⌋ : ℚ)) fullRate⟩
    else
      ⟨i, fullRate, fullRate⟩)

/-- A pool's mutable side: remaining (unconsumed) capacity per instance,
in index order. -/
def poolRemaining (instances : List FacilityInstance) : List (Nat × ℚ) :=
  instances.map (fun f => (f.facilityIndex, f.actualOutputRate))

/-- Modelled from the spec: one `allocate(key, demandRate)` call — greedily
draw from the instances in order, consuming up to each instance's
remaining capacity, until the demand or the capacity is exhausted.
Returns the ordered allocation list and the updated pool. -/
def allocate : List (Nat × ℚ) → ℚ → List (Nat × ℚ) × List (Nat × ℚ)
  | [], _ => ([], [])
  | (i, cap) :: rest, demand =>
    if demand ≤ 0 then ([], (i, cap) :: rest)
    else
      let take := qmin demand cap
      let x := allocate rest (qsub demand take)
      ((if take > 0 then [(i, take)] else []) ++ x.1, (i, qsub cap take) :: x.2)

/-- A sequence of `allocate` calls against one pool, in call order. -/
def runAllocations (pool : List (Nat × ℚ)) (demands : List ℚ) :
    List (List (Nat × ℚ)) × List (Nat × ℚ) :=
  demands.foldl
    (fun acc d =>
      let r := allocate acc.2 d
      (acc.1 ++ [r.1], r.2))
    ([], pool)

/-! ## Cycle net outputs (`calculateCycleNetOutputs`)

From the first document of `calculator.ts` (the tree-based pipeline):
per-iteration production and consumption of every item over the cycle's
recipes, keeping the net when its magnitude exceeds `0.001`. -/

def calculateCycleNetOutputs (cycleNodes : List ProductionNode) :
    List (ItemId × ℚ) :=
  let pc := cycleNodes.foldl
    (fun (pc : List (ItemId × ℚ) × List (ItemId × ℚ)) node =>
      match node.recipe with
      | none => pc
      | some r =>
        let production := r.outputs.foldl
          (fun m o => setA m o.itemId (qadd (getDA m o.itemId 0) o.amount)) pc.1
        let consumption := r.inputs.foldl
          (fun m i => setA m i.itemId (qadd (getDA m i.itemId 0) i.amount)) pc.2
        (production, consumption))
    ([], [])
  pc.1.foldl
    (fun net p =>
      let netv := qsub p.2 (getDA pc.2 p.1 0)
      if qabs netv > Rat.divInt 1 1000 then setA net p.1 netv else net)
    []

/-! ## Specification-level predicates and measures -/

/-- Every value stored in an association map is non-negative. -/
def NonnegEntries {α : Type} (m : List (α × ℚ)) : Prop := ∀ p ∈ m, 0 ≤ p.2

/-- Catalog well-formedness for a list of recipes: positive crafting
duration, non-negative input and output amounts. -/
def RecipesWF (rs : List Recipe) : Prop :=
  ∀ r ∈ rs, 0 < r.craftingTime ∧ (∀ i ∈ r.inputs, 0 ≤ i.amount) ∧
    (∀ o ∈ r.outputs, 0 ≤ o.amount)

/-- The number of catalog items not yet on the expansion path: the
termination measure of the tree assembler's recursion. -/
def unvisitedCount (maps : ProductionMaps) (visitedPath : List ItemId) : Nat :=
  ((maps.itemMap.map Prod.fst).filter (fun k => !visitedPath.contains k)).length

def emptyGraph : BipartiteGraph :=
  { itemNodes := [], recipeNodes := [], itemConsumedBy := [],
    itemProducedBy := [], recipeInputs := [], recipeOutput := [],
    targets := [], rawMaterials := [] }

/-! ## Concrete catalogs used by the evaluation theorems -/

def exFac : Facility := ⟨"F", 100⟩

/-- C1 scenario: one facility of the recipe outputs 5 X per minute
(1 X per 12-second craft) and consumes 2 Y per craft. -/
def c1Recipe : Recipe := ⟨"R", [⟨"Y", 2⟩], [⟨"X", 1⟩], 12, "F"⟩

def c1Items : List Item := [⟨"X", 1⟩, ⟨"Y", 1⟩]

def c1Maps : ProductionMaps :=
  { itemMap := mkMapA (c1Items.map (fun i => (i.id, i))),
    recipeMap := mkMapA ([c1Recipe].map (fun r => (r.id, r))),
    facilityMap := mkMapA ([exFac].map (fun f => (f.id, f))) }

def c1Targets : List Target := [⟨"X", 10⟩]

def c1Flow : Except String FlowState := do
  let g ← buildBipartiteGraph c1Targets c1Maps [] defaultRecipeSelector [] []
  let sccs ← detectSCCs g
  let ord ← buildCondensedDAGAndSort g sccs
  calculateFlows g ord (mkMapA (c1Targets.map (fun t => (t.itemId, t.rate)))) c1Maps

def c1Graph : BipartiteGraph :=
  (buildBipartiteGraph c1Targets c1Maps [] defaultRecipeSelector [] []).toOption.getD
    emptyGraph

def c1FlowData : FlowState := c1Flow.toOption.getD ⟨[], [], []⟩

/-- Cycle catalog (used for C2 and C6): recipes R1 (1 Y → 2 X) and
R2 (1 X → 1 Y) form a production loop with net X output; recipe RZ
(1 X → 1 Z) consumes X from outside the loop; X and Z are targets. -/
def cyR1 : Recipe := ⟨"R1", [⟨"Y", 1⟩], [⟨"X", 2⟩], 60, "F"⟩

def cyR2 : Recipe := ⟨"R2", [⟨"X", 1⟩], [⟨"Y", 1⟩], 60, "F"⟩

def cyRZ : Recipe := ⟨"RZ", [⟨"X", 1⟩], [⟨"Z", 1⟩], 60, "F"⟩

def cyItems : List Item := [⟨"X", 1⟩, ⟨"Y", 1⟩, ⟨"Z", 1⟩]

def cyMaps : ProductionMaps :=
  { itemMap := mkMapA (cyItems.map (fun i => (i.id, i))),
    recipeMap := mkMapA ([cyR1, cyR2, cyRZ].map (fun r => (r.id, r))),
    facilityMap := mkMapA ([exFac].map (fun f => (f.id, f))) }

def cyTargets : List Target := [⟨"X", 10⟩, ⟨"Z", 10⟩]

def cyFlow : Except String FlowState := do
  let g ← buildBipartiteGraph cyTargets cyMaps [] defaultRecipeSelector [] []
  let sccs ← detectSCCs g
  let ord ← buildCondensedDAGAndSort g sccs
  calculateFlows g ord (mkMapA (cyTargets.map (fun t => (t.itemId, t.rate)))) cyMaps

def cyPlan : Except String ProductionDependencyGraph :=
  calculateProductionPlan cyTargets cyItems [cyR1, cyR2, cyRZ] [exFac] []
    defaultRecipeSelector [] []

/-- C4 negative-solution catalog: each loop recipe consumes two units of
the other item per unit produced, so meeting an external demand needs
negative facility counts. -/
def negR1 : Recipe := ⟨"R1", [⟨"Y", 2⟩], [⟨"X", 1⟩], 60, "F"⟩

def negR2 : Recipe := ⟨"R2", [⟨"X", 2⟩], [⟨"Y", 1⟩], 60, "F"⟩

def negMaps : ProductionMaps :=
  { itemMap := mkMapA ([(⟨"X", 1⟩ : Item), ⟨"Y", 1⟩].map (fun i => (i.id, i))),
    recipeMap := mkMapA ([negR1, negR2].map (fun r => (r.id, r))),
    facilityMap := mkMapA ([exFac].map (fun f => (f.id, f))) }

def negGraph : BipartiteGraph :=
  (buildBipartiteGraph [⟨"X", 10⟩] negMaps [] defaultRecipeSelector [] []).toOption.getD
    emptyGraph

def negScc : SCCInfo := ⟨"scc-X-Y", ["Y", "X"], ["R1", "R2"], []⟩

def negSt : FlowState := ⟨[("X", 10)], [], []⟩

/-- C4 singular catalog: the loop converts X and Y one-for-one, so the
linear system for any positive external demand has no solution. -/
def singR1 : Recipe := ⟨"R1", [⟨"Y", 1⟩], [⟨"X", 1⟩], 60, "F"⟩

def singR2 : Recipe := ⟨"R2", [⟨"X", 1⟩], [⟨"Y", 1⟩], 60, "F"⟩

def singMaps : ProductionMaps :=
  { itemMap := mkMapA ([(⟨"X", 1⟩ : Item), ⟨"Y", 1⟩].map (fun i => (i.id, i))),
    recipeMap := mkMapA ([singR1, singR2].map (fun r => (r.id, r))),
    facilityMap := mkMapA ([exFac].map (fun f => (f.id, f))) }

def singGraph : BipartiteGraph :=
  (buildBipartiteGraph [⟨"X", 10⟩] singMaps [] defaultRecipeSelector [] []).toOption.getD
    emptyGraph

/-- C8 catalog: item P is produced by rP from C; item C has the two
candidate recipes r1 and r2. -/
def p8rP : Recipe := ⟨"rP", [⟨"C", 1⟩], [⟨"P", 1⟩], 60, "F"⟩

def p8r1 : Recipe := ⟨"r1", [], [⟨"C", 1⟩], 60, "F"⟩

def p8r2 : Recipe := ⟨"r2", [], [⟨"C", 1⟩], 60, "F"⟩

/-- A selection policy that inspects the path it is given: it asks for r1
exactly when item P is on the path (as it is on the descent P → C), and
for r2 otherwise. -/
def p8Sel : RecipeSelector := fun rs path =>
  match rs.find? (fun r => r.id = (if path.contains "P" then "r1" else "r2")) with
  | some r => some r
  | none => rs.head?

def p8Maps : ProductionMaps :=
  { itemMap := mkMapA ([(⟨"P", 1⟩ : Item), ⟨"C", 1⟩].map (fun i => (i.id, i))),
    recipeMap := mkMapA ([p8rP, p8r1, p8r2].map (fun r => (r.id, r))),
    facilityMap := mkMapA ([exFac].map (fun f => (f.id, f))) }

def cyGraph : BipartiteGraph :=
  (buildBipartiteGraph cyTargets cyMaps [] defaultRecipeSelector [] []).toOption.getD
    emptyGraph

/-- A recipe all of whose outputs have amount zero (C10 witness data). -/
def zeroRecipe : Recipe := ⟨"R0", [], [⟨"X", 0⟩], 60, "F"⟩

def zeroGraph : BipartiteGraph :=
  { emptyGraph with recipeNodes := [("R0", ⟨"R0", zeroRecipe, exFac, ["X"]⟩)] }

/-! ## Bridge lemmas for the arithmetic wrappers -/

theorem num_den_cast_ne_zero (a : ℚ) : ((a.den : ℚ)) ≠ 0 :=
  Nat.cast_ne_zero.mpr a.den_nz

theorem qadd_eq (a b : ℚ) : qadd a b = a + b := by
  conv_rhs => rw [← Rat.num_div_den a, ← Rat.num_div_den b]
  unfold qadd
  rw [Rat.divInt_eq_div]
  have ha := num_den_cast_ne_zero a
  have hb := num_den_cast_ne_zero b
  push_cast
  field_simp

theorem qsub_eq (a b : ℚ) : qsub a b = a - b := by
  conv_rhs => rw [← Rat.num_div_den a, ← Rat.num_div_den b]
  unfold qsub
  rw [Rat.divInt_eq_div]
  have ha := num_den_cast_ne_zero a
  have hb := num_den_cast_ne_zero b
  push_cast
  field_simp
  ring

theorem qmul_eq (a b : ℚ) : qmul a b = a * b := by
  conv_rhs => rw [← Rat.num_div_den a, ← Rat.num_div_den b]
  unfold qmul
  rw [Rat.divInt_eq_div]
  have ha := num_den_cast_ne_zero a
  have hb := num_den_cast_ne_zero b
  push_cast
  field_simp

theorem qdiv_eq (a b : ℚ) : qdiv a b = a / b := by
  rcases eq_or_ne b 0 with rfl | hb0
  · simp [qdiv, Rat.divInt_eq_div]
  · conv_rhs => rw [← Rat.num_div_den a, ← Rat.num_div_den b]
    unfold qdiv
    rw [Rat.divInt_eq_div]
    have ha := num_den_cast_ne_zero a
    have hb := num_den_cast_ne_zero b
    have hbn : ((b.num : ℚ)) ≠ 0 := by
      exact_mod_cast Rat.num_ne_zero.mpr hb0
    push_cast
    field_simp

theorem qmax_eq (a b : ℚ) : qmax a b = max a b := (max_def a b).symm

theorem qmin_eq (a b : ℚ) : qmin a b = min a b := (min_def a b).symm

theorem qabs_eq (a : ℚ) : qabs a = |a| := by
  unfold qabs
  rcases lt_or_le a 0 with h | h
  · simp [h, abs_of_neg h]
  · simp [not_lt.mpr h, abs_of_nonneg h]


/-! ## Association-list lemmas -/

theorem lookupA_mem {α β : Type} [DecidableEq α] {m : List (α × β)} {k : α}
    {v : β} (h : lookupA m k = some v) : (k, v) ∈ m := by
  induction m with
  | nil => simp [lookupA] at h
  | cons p rest ih =>
    obtain ⟨a, b⟩ := p
    by_cases hk : a = k
    · subst hk
      simp [lookupA] at h
      simp [h]
    · simp [lookupA, hk] at h
      exact List.mem_cons_of_mem _ (ih h)

theorem keys_mem_of_lookupA {α β : Type} [DecidableEq α] {m : List (α × β)}
    {k : α} {v : β} (h : lookupA m k = some v) : k ∈ m.map Prod.fst :=
  List.mem_map.mpr ⟨(k, v), lookupA_mem h, rfl⟩

theorem lookupA_setA_self {α β : Type} [DecidableEq α] (m : List (α × β))
    (k : α) (v : β) : lookupA (setA m k v) k = some v := by
  induction m with
  | nil => simp [setA, lookupA]
  | cons p rest ih =>
    obtain ⟨a, b⟩ := p
    by_cases hk : a = k
    · subst hk; simp [setA, lookupA]
    · simp [setA, lookupA, hk, ih]

theorem lookupA_setA_ne {α β : Type} [DecidableEq α] (m : List (α × β))
    (k k' : α) (v : β) (h : k' ≠ k) :
    lookupA (setA m k v) k' = lookupA m k' := by
  have hk' : ∀ hh : k = k', False := fun hh => h (hh.symm ▸ rfl)
  induction m with
  | nil =>
    simp only [setA, lookupA]
    rw [if_neg (fun hh => hk' hh)]
  | cons p rest ih =>
    obtain ⟨a, b⟩ := p
    by_cases hk : a = k
    · subst hk
      simp only [setA, if_pos rfl, lookupA]
      rw [if_neg (fun hh => hk' hh), if_neg (fun hh => hk' hh)]
    · simp only [setA, if_neg hk, lookupA]
      by_cases ha : a = k'
      · simp [ha]
      · simp [ha, ih]

theorem getDA_setA_self {α β : Type} [DecidableEq α] (m : List (α × β))
    (k : α) (v d : β) : getDA (setA m k v) k d = v := by
  simp [getDA, lookupA_setA_self]

theorem getDA_setA_ne {α β : Type} [DecidableEq α] (m : List (α × β))
    (k k' : α) (v d : β) (h : k' ≠ k) :
    getDA (setA m k v) k' d = getDA m k' d := by
  simp [getDA, lookupA_setA_ne _ _ _ _ h]

theorem mem_setA {α β : Type} [DecidableEq α] {m : List (α × β)} {k : α}
    {v : β} {p : α × β} (h : p ∈ setA m k v) : p = (k, v) ∨ p ∈ m := by
  induction m with
  | nil => simpa [setA] using h
  | cons q rest ih =>
    obtain ⟨a, b⟩ := q
    by_cases hk : a = k
    · subst hk
      simp [setA] at h
      rcases h with h | h
      · exact Or.inl h
      · exact Or.inr (List.mem_cons_of_mem _ h)
    · simp [setA, hk] at h
      rcases h with h | h
      · exact Or.inr (by simp [h])
      · rcases ih h with h' | h'
        · exact Or.inl h'
        · exact Or.inr (List.mem_cons_of_mem _ h')

/-! ## Non-negativity of map entries -/

theorem nonneg_getDA {α : Type} [DecidableEq α] {m : List (α × ℚ)}
    (h : NonnegEntries m) (k : α) : 0 ≤ getDA m k 0 := by
  unfold getDA
  cases hl : lookupA m k with
  | none => simp
  | some v => simpa using h _ (lookupA_mem hl)

theorem nonneg_setA {α : Type} [DecidableEq α] {m : List (α × ℚ)} {k : α}
    {v : ℚ} (h : NonnegEntries m) (hv : 0 ≤ v) : NonnegEntries (setA m k v) := by
  intro p hp
  rcases mem_setA hp with rfl | hp'
  · exact hv
  · exact h _ hp'

/-! ## Generic fold lemmas -/

theorem foldl_preserve {σ α : Type} (P : σ → Prop) (f : σ → α → σ)
    (l : List α) (h : ∀ s a, a ∈ l → P s → P (f s a)) :
    ∀ s, P s → P (l.foldl f s) := by
  induction l with
  | nil => intro s hs; simpa using hs
  | cons a t ih =>
    intro s hs
    simp only [List.foldl_cons]
    exact ih (fun s' x hx hs' => h s' x (List.mem_cons_of_mem _ hx) hs') _
      (h s a (List.mem_cons_self _ _) hs)

theorem foldlM_ok_preserve {σ α : Type} (P : σ → Prop)
    (f : σ → α → Except String σ) (l : List α)
    (h : ∀ s a, a ∈ l → P s → ∀ s', f s a = .ok s' → P s') :
    ∀ s s', P s → l.foldlM f s = .ok s' → P s' := by
  induction l with
  | nil =>
    intro s s' hs heq
    simp only [List.foldlM_nil] at heq
    cases heq
    exact hs
  | cons a t ih =>
    intro s s' hs heq
    rw [List.foldlM_cons] at heq
    cases hfa : f s a with
    | error e => rw [hfa] at heq; cases heq
    | ok s₁ =>
      rw [hfa] at heq
      exact ih (fun s'' x hx hs'' => h s'' x (List.mem_cons_of_mem _ hx) hs'')
        s₁ s' (h s a (List.mem_cons_self _ _) hs s₁ hfa) heq

theorem foldlM_ok_exists {σ α : Type} (P : σ → Prop)
    (f : σ → α → Except String σ) (l : List α)
    (h : ∀ s a, a ∈ l → P s → ∃ s', f s a = .ok s' ∧ P s') :
    ∀ s, P s → ∃ s', l.foldlM f s = .ok s' ∧ P s' := by
  induction l with
  | nil => intro s hs; exact ⟨s, rfl, hs⟩
  | cons a t ih =>
    intro s hs
    obtain ⟨s₁, hfa, hs₁⟩ := h s a (List.mem_cons_self _ _) hs
    obtain ⟨s', ht, hs'⟩ :=
      ih (fun s'' x hx hs'' => h s'' x (List.mem_cons_of_mem _ hx) hs'') s₁ hs₁
    exact ⟨s', by rw [List.foldlM_cons, hfa]; exact ht, hs'⟩

theorem mapE_ok_mem {α β : Type} (f : α → Except String β) :
    ∀ (l : List α) (ys : List β), mapE f l = .ok ys →
      ∀ y ∈ ys, ∃ x ∈ l, f x = .ok y := by
  intro l
  induction l with
  | nil =>
    intro ys h y hy
    simp only [mapE] at h
    cases h
    simp at hy
  | cons a t ih =>
    intro ys h y hy
    simp only [mapE] at h
    cases hfa : f a with
    | error e => rw [hfa] at h; cases h
    | ok b =>
      rw [hfa] at h
      cases hft : mapE f t with
      | error e => rw [hft] at h; cases h
      | ok bs =>
        rw [hft] at h
        cases h
        rcases List.mem_cons.mp hy with rfl | hy'
        · exact ⟨a, List.mem_cons_self _ _, hfa⟩
        · obtain ⟨x, hx, hfx⟩ := ih bs hft y hy'
          exact ⟨x, List.mem_cons_of_mem _ hx, hfx⟩

theorem mapE_ne_error {α β : Type} (f : α → Except String β) (e : String) :
    ∀ (l : List α), (∀ x ∈ l, f x ≠ .error e) → mapE f l ≠ .error e := by
  intro l
  induction l with
  | nil => intro _ h; simp [mapE] at h
  | cons a t ih =>
    intro hall h
    simp only [mapE] at h
    cases hfa : f a with
    | error e' =>
      rw [hfa] at h
      cases h
      exact hall a (List.mem_cons_self _ _) hfa
    | ok b =>
      rw [hfa] at h
      cases hft : mapE f t with
      | error e' =>
        rw [hft] at h
        cases h
        exact ih (fun x hx => hall x (List.mem_cons_of_mem _ hx)) hft
      | ok bs => rw [hft] at h; cases h

theorem mapE_ok_of_forall {α β : Type} (f : α → Except String β) :
    ∀ (l : List α), (∀ x ∈ l, ∃ y, f x = .ok y) → ∃ ys, mapE f l = .ok ys := by
  intro l
  induction l with
  | nil => exact fun _ => ⟨[], rfl⟩
  | cons a t ih =>
    intro hall
    obtain ⟨b, hb⟩ := hall a (List.mem_cons_self _ _)
    obtain ⟨bs, hbs⟩ := ih (fun x hx => hall x (List.mem_cons_of_mem _ hx))
    refine ⟨b :: bs, ?_⟩
    simp only [mapE, hb, hbs]

/-! ## Properties of the primary-output selection -/

theorem primarySelect_of_nonpos (outputs : List Stack) (ct : ℚ)
    (h : ∀ o ∈ outputs, calcRate o.amount ct ≤ 0) :
    primarySelect outputs ct = (none, 0) := by
  unfold primarySelect
  induction outputs with
  | nil => rfl
  | cons o t ih =>
    simp only [List.foldl_cons]
    have hle := not_lt.mpr (h o (List.mem_cons_self _ _))
    rw [show primaryStep ct (none, 0) o = ((none : Option ItemId), (0 : ℚ)) from
      if_neg hle]
    exact ih (fun x hx => h x (List.mem_cons_of_mem _ hx))

/-- C10: in the recipe-vertex branch of the demand-flow walk, a recipe
whose largest per-minute output rate is zero (for example because all
output amounts are zero) gets facility count `0` from the explicit
`primaryOutputRate > 0` guard, rather than a division by zero. -/
theorem C10_zero_output_rate_guard (graph : BipartiteGraph)
    (maps : ProductionMaps) (st : FlowState) (rid : RecipeId)
    (d : RecipeNodeData) (hlk : lookupA graph.recipeNodes rid = some d)
    (hz : ∀ o ∈ d.recipe.outputs, calcRate o.amount d.recipe.craftingTime ≤ 0) :
    ∃ st', processCondensedNode graph maps st (.recipe rid) = .ok st' ∧
      lookupA st'.recipeFacilityCounts rid = some 0 := by
  refine ⟨applyRecipeVertex d.recipe rid st, ?_, ?_⟩
  · simp [processCondensedNode, hlk]
  · unfold applyRecipeVertex
    rw [primarySelect_of_nonpos _ _ hz]
    simp [lookupA_setA_self]

/-- Witness for C10 at a concrete recipe whose only output has amount 0. -/
theorem C10_zero_output_rate_guard_witness :
    ∃ st', processCondensedNode zeroGraph c1Maps ⟨[("X", 5)], [], []⟩
        (.recipe "R0") = .ok st' ∧
      lookupA st'.recipeFacilityCounts "R0" = some 0 :=
  C10_zero_output_rate_guard zeroGraph c1Maps ⟨[("X", 5)], [], []⟩ "R0"
    ⟨"R0", zeroRecipe, exFac, ["X"]⟩ (by decide) (by decide)

/-- C9 (amended): the solve entry point raises the fatal
"No targets specified" error exactly for an empty target list; it performs
no validation of target rates — a zero or a negative desired rate is
accepted and the solve completes normally. -/
theorem C9_target_validation :
    (∀ (items : List Item) (recipes : List Recipe) (facilities : List Facility)
      (ro : List (ItemId × RecipeId)) (sel : RecipeSelector)
      (man forced : List ItemId),
      calculateProductionPlan [] items recipes facilities ro sel man forced
        = .error "No targets specified")
    ∧ (calculateProductionPlan [⟨"X", 0⟩] [⟨"X", 1⟩] [] [] []
        defaultRecipeSelector [] []).isOk = true
    ∧ (calculateProductionPlan [⟨"X", -5⟩] [⟨"X", 1⟩] [] [] []
        defaultRecipeSelector [] []).isOk = true := by
  refine ⟨?_, by decide, by decide⟩
  intro items recipes facilities ro sel man forced
  rfl

/-- C9 counterexample: the claim also requires a fatal error for a
zero-rate (or negative-rate) target, but the solve accepts both and
returns a result. -/
theorem C9_counterexample :
    (calculateProductionPlan [⟨"X", 0⟩] [⟨"X", 1⟩] [] [] []
        defaultRecipeSelector [] []).isOk = true
    ∧ (calculateProductionPlan [⟨"X", -5⟩] [⟨"X", 1⟩] [] [] []
        defaultRecipeSelector [] []).isOk = true := by
  exact ⟨by decide, by decide⟩

/-! ## C6: netOutputs of detected cycles -/

theorem convert_netOutputs_empty (graph : BipartiteGraph) (flowData : FlowState)
    (targets : List Target) (sccs : List SCCInfo) (maps : ProductionMaps)
    (pr : List ProductionNode × List DetectedCycle)
    (h : convertToProductionNodeTree graph flowData targets sccs maps = .ok pr) :
    ∀ c ∈ pr.2, c.netOutputs = [] := by
  unfold convertToProductionNodeTree at h
  simp only [bind, Except.bind, pure, Except.pure] at h
  split at h
  · exact Except.noConfusion h
  · split at h
    · exact Except.noConfusion h
    · next dc heq2 =>
        cases h
        intro c hc
        obtain ⟨scc, hscc, hfc⟩ := mapE_ok_mem _ sccs dc heq2 c hc
        split at hfc
        · exact Except.noConfusion hfc
        · cases hfc
          rfl

/-- C6 (code bug): every `DetectedCycle` returned by the solve entry point
carries an *empty* `netOutputs` map — the pipeline constructs each cycle
with `netOutputs := new Map()` and never fills it — even for a cycle whose
recipes produce and consume an item in unequal amounts, where the
repository's own `calculateCycleNetOutputs` yields a non-empty map
(second conjunct: the concrete loop produces 2 X and consumes 1 X per
iteration, net `X ↦ 1`, yet the returned map is empty). -/
theorem C6_netOutputs_left_empty :
    (∀ (targets : List Target) (items : List Item) (recipes : List Recipe)
      (facilities : List Facility) (ro : List (ItemId × RecipeId))
      (sel : RecipeSelector) (man forced : List ItemId)
      (plan : ProductionDependencyGraph),
      calculateProductionPlan targets items recipes facilities ro sel man forced
        = .ok plan → ∀ c ∈ plan.detectedCycles, c.netOutputs = [])
    ∧ (cyPlan.map (fun p => p.detectedCycles.map
        (fun c => (c.netOutputs, calculateCycleNetOutputs c.cycleNodes)))).toOption
      = some [([], [("X", 1)])] := by
  constructor
  · intro targets items recipes facilities ro sel man forced plan h
    unfold calculateProductionPlan at h
    simp only [bind, Except.bind, pure, Except.pure, throw, throwThe,
      MonadExceptOf.throw] at h
    split at h
    · exact Except.noConfusion h
    · split at h
      · exact Except.noConfusion h
      · split at h
        · exact Except.noConfusion h
        · split at h
          · exact Except.noConfusion h
          · split at h
            · exact Except.noConfusion h
            · split at h
              · exact Except.noConfusion h
              · next v heq2 =>
                  cases h
                  simpa using convert_netOutputs_empty _ _ _ _ _ _ heq2
  · decide

/-- Witness for C6: the hypotheses of the universal part hold at a concrete
solve (a single raw-material target). -/
theorem C6_netOutputs_left_empty_witness :
    ∀ c ∈ (ProductionDependencyGraph.mk
        [ProductionNode.mk ⟨"X", 1⟩ 5 none none 0 true true [] false none]
        []).detectedCycles, c.netOutputs = [] :=
  C6_netOutputs_left_empty.1 [⟨"X", 5⟩] [⟨"X", 1⟩] [] [] []
    defaultRecipeSelector [] []
    (ProductionDependencyGraph.mk
      [ProductionNode.mk ⟨"X", 1⟩ 5 none none 0 true true [] false none] [])
    rfl

/-! ## C2: the SCC right-hand side double-counts external consumers -/

/-- C2 (code bug, evaluated at the failing input): in the cycle catalog,
recipe RZ consumes 10 X/min (at its solved count of 10 facilities) and X
is also a target at 10/min, so per the claim the right-hand side of the
SCC system for X should be `10 + 10 = 20`, giving 20 facilities for each
loop recipe.  The code instead adds the *accumulated demand-map entry*
for the target item — which the already-processed consumer RZ has raised
to 20 — on top of the freshly computed consumer demand of 10, producing a
right-hand side of 30 (second conjunct, evaluated at the exact flow state
the walk reaches just before the SCC vertex) and facility counts of 30
(first conjunct, the full demand-flow run). -/
theorem C2_scc_external_demand_double_count :
    (cyFlow.map (fun fd => (lookupA fd.recipeFacilityCounts "R1",
        lookupA fd.recipeFacilityCounts "R2",
        lookupA fd.recipeFacilityCounts "RZ"))).toOption
      = some (some 30, some 30, some 10)
    ∧ (sccExternalDemands ⟨"scc-X-Y", ["Y", "X"], ["R1", "R2"], []⟩ cyGraph
        cyMaps ⟨[("X", 20), ("Z", 10)], [("RZ", 10)], []⟩).toOption
      = some [("X", 30)] :=
  ⟨by decide, by decide⟩

/-! ## C5: capacity-pool properties -/

theorem sum_map_constQ {α : Type} (l : List α) (q : ℚ) :
    (l.map (fun _ => q)).sum = l.length * q := by
  induction l with
  | nil => simp
  | cons a t ih =>
    simp only [List.map_cons, List.sum_cons, List.length_cons, ih]
    push_cast
    ring

theorem pool_sum_nonneg (pool : List (Nat × ℚ)) (h : ∀ p ∈ pool, 0 ≤ p.2) :
    0 ≤ (pool.map Prod.snd).sum :=
  List.sum_nonneg (by
    intro x hx
    obtain ⟨p, hp, rfl⟩ := List.mem_map.mp hx
    exact h p hp)

theorem min_alloc_arith (demand cap r : ℚ) (hd : 0 ≤ demand) (hc : 0 ≤ cap)
    (hr : 0 ≤ r) :
    min demand cap + min (demand - min demand cap) r = min demand (cap + r) := by
  rcases le_total demand cap with h | h
  · rw [min_eq_left h, sub_self, min_eq_left hr,
      min_eq_left (le_trans h (le_add_of_nonneg_right hr))]
    ring
  · rw [min_eq_right h]
    rcases le_total (demand - cap) r with h2 | h2
    · rw [min_eq_left h2, min_eq_left (by linarith)]
      ring
    · rw [min_eq_right h2, min_eq_right (by linarith)]

theorem allocate_spec :
    ∀ (pool : List (Nat × ℚ)) (demand : ℚ), 0 ≤ demand →
      (∀ p ∈ pool, 0 ≤ p.2) →
      (((allocate pool demand).1.map Prod.snd).sum
          = min demand ((pool.map Prod.snd).sum))
      ∧ (((allocate pool demand).2.map Prod.snd).sum
          = (pool.map Prod.snd).sum - ((allocate pool demand).1.map Prod.snd).sum)
      ∧ (∀ p ∈ (allocate pool demand).2, 0 ≤ p.2)
      ∧ List.Sublist ((allocate pool demand).1.map Prod.fst) (pool.map Prod.fst)
  | [], demand, hd, _ => by
    simp only [allocate, List.map_nil, List.sum_nil]
    refine ⟨(min_eq_right hd).symm, by ring, by simp, by simp⟩
  | (i, cap) :: rest, demand, hd, hpool => by
    have hcap : 0 ≤ cap := hpool (i, cap) (List.mem_cons_self _ _)
    have hrest : ∀ p ∈ rest, 0 ≤ p.2 :=
      fun p hp => hpool p (List.mem_cons_of_mem _ hp)
    have hr : 0 ≤ (rest.map Prod.snd).sum := pool_sum_nonneg rest hrest
    by_cases hle : demand ≤ 0
    · have hdz : demand = 0 := le_antisymm hle hd
      subst hdz
      simp only [allocate, if_pos le_rfl, List.map_nil, List.sum_nil]
      refine ⟨?_, by ring, hpool, by simp⟩
      have h0 : (0 : ℚ) ≤ ((((i, cap) :: rest).map Prod.snd).sum) :=
        pool_sum_nonneg _ hpool
      exact (min_eq_left h0).symm
    · have hdp : 0 < demand := lt_of_not_le hle
      have htake_eq : qmin demand cap = min demand cap := qmin_eq _ _
      have hqs : qsub demand (qmin demand cap) = demand - min demand cap := by
        rw [qsub_eq, htake_eq]
      have hd' : 0 ≤ qsub demand (qmin demand cap) := by
        rw [hqs]
        have := min_le_left demand cap
        linarith
      obtain ⟨ih1, ih2, ih3, ih4⟩ :=
        allocate_spec rest (qsub demand (qmin demand cap)) hd' hrest
      rw [hqs] at ih1 ih2 ih3 ih4
      simp only [allocate, if_neg hle]
      rw [htake_eq]
      rw [show qsub demand (min demand cap) = demand - min demand cap from by
        rw [qsub_eq]]
      have hmin_nonneg : 0 ≤ min demand cap := le_min (le_of_lt hdp) hcap
      constructor
      · by_cases htp : min demand cap > 0
        · simp only [if_pos htp, List.map_append, List.sum_append,
            List.map_cons, List.sum_cons, List.map_nil, List.sum_nil, ih1]
          have := min_alloc_arith demand cap ((rest.map Prod.snd).sum)
            (le_of_lt hdp) hcap hr
          linarith [this]
        · have htz : min demand cap = 0 := le_antisymm (not_lt.mp htp) hmin_nonneg
          have hcz : cap = 0 := by
            rcases le_total demand cap with h | h
            · rw [min_eq_left h] at htz; linarith
            · rw [min_eq_right h] at htz; linarith
          rw [if_neg htp, List.nil_append, ih1, htz, sub_zero]
          simp [hcz]
      · refine ⟨?_, ?_, ?_⟩
        · simp only [List.map_cons, List.sum_cons, ih2]
          by_cases htp : min demand cap > 0
          · simp only [if_pos htp, List.map_append, List.sum_append,
              List.map_cons, List.sum_cons, List.map_nil, List.sum_nil,
              qsub_eq]
            ring
          · have htz : min demand cap = 0 :=
              le_antisymm (not_lt.mp htp) hmin_nonneg
            rw [if_neg htp]
            simp only [List.nil_append, qsub_eq, htz]
            ring
        · intro p hp
          rcases List.mem_cons.mp hp with rfl | hp'
          · show 0 ≤ qsub cap (min demand cap)
            rw [qsub_eq]
            have := min_le_right demand cap
            linarith
          · exact ih3 p hp'
        · by_cases htp : min demand cap > 0
          · simp only [if_pos htp, List.map_append, List.map_cons,
              List.map_nil]
            exact List.Sublist.cons₂ i ih4
          · simp only [if_neg htp, List.nil_append, List.map_cons]
            exact List.Sublist.cons i ih4

theorem createPool_length (c fullRate : ℚ) :
    (createPool c fullRate).length = (⌈c⌉).toNat := by
  simp [createPool]

theorem createPool_zero (fullRate : ℚ) : createPool 0 fullRate = [] := by
  simp [createPool]

theorem createPool_get_full (c fullRate : ℚ) (i : Nat)
    (hi : i + 1 < (⌈c⌉).toNat) :
    (createPool c fullRate).get? i = some ⟨i, fullRate, fullRate⟩ := by
  have hilt : i < (⌈c⌉).toNat := by omega
  simp only [createPool, List.get?_map, List.get?_range hilt, Option.map_some']
  rw [if_neg]
  intro hcon
  exact absurd hcon.1 (by omega)

theorem createPool_get_last (c fullRate : ℚ) (h : 0 < (⌈c⌉).toNat) :
    (createPool c fullRate).get? ((⌈c⌉).toNat - 1)
      = some ⟨(⌈c⌉).toNat - 1, fullRate,
          if (⌊c⌋ : ℚ) = c then fullRate else (c - ⌊c⌋) * fullRate⟩ := by
  have hilt : (⌈c⌉).toNat - 1 < (⌈c⌉).toNat := by omega
  simp only [createPool, List.get?_map, List.get?_range hilt, Option.map_some']
  by_cases hint : (⌊c⌋ : ℚ) = c
  · rw [if_neg (fun hcon => hcon.2 hint), if_pos hint]
  · rw [if_pos ⟨by omega, hint⟩, if_neg hint, qmul_eq, qsub_eq]

theorem createPool_entries_nonneg (c fullRate : ℚ) (hf : 0 ≤ fullRate) :
    ∀ p ∈ poolRemaining (createPool c fullRate), 0 ≤ p.2 := by
  intro p hp
  simp only [poolRemaining, List.mem_map] at hp
  obtain ⟨inst, hinst, rfl⟩ := hp
  simp only [createPool, List.mem_map] at hinst
  obtain ⟨i, _, rfl⟩ := hinst
  by_cases hcase : i + 1 = (⌈c⌉).toNat ∧ ¬((⌊c⌋ : ℚ) = c)
  · rw [if_pos hcase]
    show 0 ≤ qmul (qsub c (⌊c⌋ : ℚ)) fullRate
    rw [qmul_eq, qsub_eq]
    have hfr : 0 ≤ c - ⌊c⌋ := by
      have := Int.floor_le c
      linarith
    exact mul_nonneg hfr hf
  · rw [if_neg hcase]
    exact hf

theorem createPool_total (c fullRate : ℚ) (hc : 0 ≤ c) :
    ((poolRemaining (createPool c fullRate)).map Prod.snd).sum = c * fullRate := by
  have hmap : (poolRemaining (createPool c fullRate)).map Prod.snd
      = (List.range (⌈c⌉).toNat).map (fun i =>
          if i + 1 = (⌈c⌉).toNat ∧ ¬((⌊c⌋ : ℚ) = c)
          then qmul (qsub c (⌊c⌋ : ℚ)) fullRate else fullRate) := by
    simp only [poolRemaining, createPool, List.map_map]
    apply List.map_congr_left
    intro i _
    by_cases hcase : i + 1 = (⌈c⌉).toNat ∧ ¬((⌊c⌋ : ℚ) = c)
    · simp only [Function.comp_apply, if_pos hcase]
    · simp only [Function.comp_apply, if_neg hcase]
  rw [hmap]
  rcases eq_or_lt_of_le hc with hzero | hpos
  · rw [← hzero]
    simp
  · have hceil_pos : 0 < ⌈c⌉ := Int.ceil_pos.mpr hpos
    by_cases hint : (⌊c⌋ : ℚ) = c
    · have hconst : (List.range (⌈c⌉).toNat).map (fun i =>
          if i + 1 = (⌈c⌉).toNat ∧ ¬((⌊c⌋ : ℚ) = c)
          then qmul (qsub c (⌊c⌋ : ℚ)) fullRate else fullRate)
          = (List.range (⌈c⌉).toNat).map (fun _ => fullRate) := by
        apply List.map_congr_left
        intro i _
        rw [if_neg (fun hcon => hcon.2 hint)]
      rw [hconst, sum_map_constQ, List.length_range]
      have h1 : ⌈c⌉ = ⌊c⌋ := by
        conv_lhs => rw [show c = ((⌊c⌋ : ℤ) : ℚ) from hint.symm]
        rw [Int.ceil_intCast]
      have h2 : ((⌈c⌉).toNat : ℤ) = ⌈c⌉ := Int.toNat_of_nonneg (by omega)
      have hceq : ((⌈c⌉).toNat : ℚ) = c := by
        rw [show (((⌈c⌉).toNat : ℕ) : ℚ) = ((((⌈c⌉).toNat : ℕ) : ℤ) : ℚ) by
          push_cast; ring]
        rw [h2, h1]
        exact hint
      rw [hceq]
    · have hn : (⌈c⌉).toNat = ((⌈c⌉).toNat - 1) + 1 := by omega
      rw [hn, List.range_succ, List.map_append, List.sum_append]
      have hfirst : (List.range ((⌈c⌉).toNat - 1)).map (fun i =>
          if i + 1 = ((⌈c⌉).toNat - 1) + 1 ∧ ¬((⌊c⌋ : ℚ) = c)
          then qmul (qsub c (⌊c⌋ : ℚ)) fullRate else fullRate)
          = (List.range ((⌈c⌉).toNat - 1)).map (fun _ => fullRate) := by
        apply List.map_congr_left
        intro i hi
        rw [List.mem_range] at hi
        rw [if_neg (fun hcon => absurd hcon.1 (by omega))]
      rw [hfirst, sum_map_constQ, List.length_range]
      simp only [List.map_cons, List.map_nil, List.sum_cons, List.sum_nil]
      rw [if_pos ⟨trivial, hint⟩, qmul_eq, qsub_eq]
      have hfr : Int.fract c ≠ 0 := by
        intro hz
        apply hint
        rw [Int.fract] at hz
        linarith
      have hceil : ((⌈c⌉ : ℤ) : ℚ) = c + 1 - Int.fract c :=
        Int.ceil_eq_add_one_sub_fract hfr
      have h2 : ((⌈c⌉).toNat : ℤ) = ⌈c⌉ := Int.toNat_of_nonneg (by omega)
      have hone : (1 : ℕ) ≤ (⌈c⌉).toNat := by omega
      have hcast : (((⌈c⌉).toNat - 1 : ℕ) : ℚ) = ((⌈c⌉ : ℤ) : ℚ) - 1 := by
        rw [Nat.cast_sub hone]
        rw [show (((⌈c⌉).toNat : ℕ) : ℚ) = ((((⌈c⌉).toNat : ℕ) : ℤ) : ℚ) by
          push_cast; ring]
        rw [h2]
        push_cast
        ring
      rw [hcast, hceil]
      rw [Int.fract]
      push_cast
      ring

theorem runAlloc_fold (demands : List ℚ) :
    ∀ (pool : List (Nat × ℚ)) (acc : List (List (Nat × ℚ))),
      (∀ d ∈ demands, 0 ≤ d) → (∀ p ∈ pool, 0 ≤ p.2) →
      (∀ p ∈ (demands.foldl
          (fun acc d =>
            let r := allocate acc.2 d
            (acc.1 ++ [r.1], r.2)) (acc, pool)).2, 0 ≤ p.2)
      ∧ ((demands.foldl
          (fun acc d =>
            let r := allocate acc.2 d
            (acc.1 ++ [r.1], r.2)) (acc, pool)).1.map
            (fun al => (al.map Prod.snd).sum)).sum
        + ((demands.foldl
            (fun acc d =>
              let r := allocate acc.2 d
              (acc.1 ++ [r.1], r.2)) (acc, pool)).2.map Prod.snd).sum
        = (acc.map (fun al => (al.map Prod.snd).sum)).sum
          + (pool.map Prod.snd).sum := by
  induction demands with
  | nil =>
    intro pool acc _ hpool
    exact ⟨by simpa using hpool, by simp⟩
  | cons d rest ih =>
    intro pool acc hd hpool
    have hd0 : 0 ≤ d := hd d (List.mem_cons_self _ _)
    obtain ⟨a1, a2, a3, _⟩ := allocate_spec pool d hd0 hpool
    simp only [List.foldl_cons]
    obtain ⟨ih1, ih2⟩ := ih (allocate pool d).2 (acc ++ [(allocate pool d).1])
      (fun x hx => hd x (List.mem_cons_of_mem _ hx)) a3
    refine ⟨ih1, ?_⟩
    rw [ih2, List.map_append, List.sum_append]
    simp only [List.map_cons, List.map_nil, List.sum_cons, List.sum_nil]
    rw [a2]
    ring

/-- C5: the facility-instance capacity pool, modelled from §4.5 of the
spec (the `capacity-pool` module itself is not among the provided
sources).  (1) `createPool` for facility count `c ≥ 0` creates
`ceil(c)` instances; a count of `0` creates none; every instance before
the last runs at the full rate; the last runs at `(c − floor c) ×
fullRate` when `c` is non-integral and at the full rate otherwise.
(2) one `allocate` call returns allocations, drawn in instance order,
whose amounts sum to `min(demandRate, total remaining capacity)`.
(3) any sequence of `allocate` calls against the pool of count `c`
delivers at most `c × fullRate` in total.  (4) the `c = 2.5` scenario:
three instances at rates `10, 10, 5` for a full rate of `10`, and the
calls `12, 20` deliver `12 + 13 = 25 = 2.5 × 10` in total. -/
theorem C5_capacity_pool_contract :
    (∀ (c fullRate : ℚ), 0 ≤ c →
      ((createPool c fullRate).length = (⌈c⌉).toNat)
      ∧ (c = 0 → createPool c fullRate = [])
      ∧ (∀ i, i + 1 < (⌈c⌉).toNat →
          (createPool c fullRate).get? i = some ⟨i, fullRate, fullRate⟩)
      ∧ (0 < (⌈c⌉).toNat →
          (createPool c fullRate).get? ((⌈c⌉).toNat - 1)
            = some ⟨(⌈c⌉).toNat - 1, fullRate,
                if (⌊c⌋ : ℚ) = c then fullRate
                else (c - ⌊c⌋) * fullRate⟩))
    ∧ (∀ (pool : List (Nat × ℚ)) (demand : ℚ), 0 ≤ demand →
        (∀ p ∈ pool, 0 ≤ p.2) →
        ((allocate pool demand).1.map Prod.snd).sum
          = min demand ((pool.map Prod.snd).sum)
        ∧ List.Sublist ((allocate pool demand).1.map Prod.fst)
            (pool.map Prod.fst))
    ∧ (∀ (c fullRate : ℚ) (demands : List ℚ), 0 ≤ c → 0 ≤ fullRate →
        (∀ d ∈ demands, 0 ≤ d) →
        ((runAllocations (poolRemaining (createPool c fullRate))
            demands).1.map (fun al => (al.map Prod.snd).sum)).sum
          ≤ c * fullRate)
    ∧ (createPool (Rat.divInt 5 2) 10
        = [⟨0, 10, 10⟩, ⟨1, 10, 10⟩, ⟨2, 10, 5⟩]
      ∧ (runAllocations (poolRemaining (createPool (Rat.divInt 5 2) 10))
          [12, 20]).1 = [[(0, 10), (1, 2)], [(1, 8), (2, 5)]]) := by
  refine ⟨?_, ?_, ?_, by decide, by decide⟩
  · intro c fullRate hc
    exact ⟨createPool_length c fullRate,
      fun hz => hz ▸ createPool_zero fullRate,
      fun i hi => createPool_get_full c fullRate i hi,
      fun hn => createPool_get_last c fullRate hn⟩
  · intro pool demand hd hpool
    obtain ⟨a1, _, _, a4⟩ := allocate_spec pool demand hd hpool
    exact ⟨a1, a4⟩
  · intro c fullRate demands hc hf hd
    obtain ⟨r1, r2⟩ := runAlloc_fold demands (poolRemaining (createPool c fullRate))
      [] hd (createPool_entries_nonneg c fullRate hf)
    have hrem : 0 ≤ (((demands.foldl
        (fun acc d =>
          let r := allocate acc.2 d
          (acc.1 ++ [r.1], r.2))
        ([], poolRemaining (createPool c fullRate))).2).map Prod.snd).sum :=
      pool_sum_nonneg _ r1
    rw [List.map_nil, List.sum_nil, zero_add,
      createPool_total c fullRate hc] at r2
    show ((demands.foldl
        (fun acc d =>
          let r := allocate acc.2 d
          (acc.1 ++ [r.1], r.2))
        ([], poolRemaining (createPool c fullRate))).1.map
          (fun al => (al.map Prod.snd).sum)).sum ≤ c * fullRate
    linarith [r2, hrem]

/-- Witness for C5 at `c = 5/2`, `fullRate = 10`, allocations `12, 20`. -/
theorem C5_capacity_pool_contract_witness :
    ((0 : ℚ) ≤ Rat.divInt 5 2)
    ∧ ((createPool (Rat.divInt 5 2) 10).length = 3
      ∧ (createPool (Rat.divInt 5 2) 10).get? 1 = some ⟨1, 10, 10⟩
      ∧ (createPool (Rat.divInt 5 2) 10).get? 2
          = some ⟨2, 10, (Rat.divInt 5 2 - ⌊Rat.divInt 5 2⌋) * 10⟩)
    ∧ ((runAllocations (poolRemaining (createPool (Rat.divInt 5 2) 10))
        [12, 20]).1.map (fun al => (al.map Prod.snd).sum)).sum
        ≤ Rat.divInt 5 2 * 10 := by
  have h := C5_capacity_pool_contract
  obtain ⟨h1, _, h3, _⟩ := h
  obtain ⟨l1, _, l3, l4⟩ := h1 (Rat.divInt 5 2) 10 (by decide)
  refine ⟨by decide, ⟨?_, ?_, ?_⟩, ?_⟩
  · rw [l1]; decide
  · have := l3 1 (by decide)
    simpa using this
  · have := l4 (by decide)
    rw [show (⌈Rat.divInt 5 2⌉).toNat - 1 = 2 from by decide] at this
    rw [this]
    rw [if_neg (by decide)]
  · exact h3 (Rat.divInt 5 2) 10 [12, 20] (by decide) (by decide) (by decide)

/-! ## C1: the recipe-vertex step of the demand-flow walk -/

theorem primary_fold_spec (ct : ℚ) :
    ∀ (outputs : List Stack) (acc : Option ItemId × ℚ),
      acc.2 ≤ (outputs.foldl (primaryStep ct) acc).2
      ∧ (∀ o ∈ outputs,
          calcRate o.amount ct ≤ (outputs.foldl (primaryStep ct) acc).2)
      ∧ (outputs.foldl (primaryStep ct) acc = acc
        ∨ (acc.2 < (outputs.foldl (primaryStep ct) acc).2
          ∧ ∃ o, outputs.find? (fun o =>
                calcRate o.amount ct = (outputs.foldl (primaryStep ct) acc).2)
              = some o
            ∧ (outputs.foldl (primaryStep ct) acc).1 = some o.itemId)) := by
  intro outputs
  induction outputs with
  | nil => exact fun acc => ⟨le_rfl, by simp, Or.inl rfl⟩
  | cons o t ih =>
    intro acc
    simp only [List.foldl_cons]
    by_cases hlt : calcRate o.amount ct > acc.2
    · have hstep : primaryStep ct acc o = (some o.itemId, calcRate o.amount ct) := by
        simp [primaryStep, hlt]
      simp only [hstep]
      obtain ⟨ih1, ih2, ih3⟩ := ih (some o.itemId, calcRate o.amount ct)
      have hrate_le : calcRate o.amount ct
          ≤ (t.foldl (primaryStep ct) (some o.itemId, calcRate o.amount ct)).2 := ih1
      refine ⟨le_trans (le_of_lt hlt) hrate_le, ?_, ?_⟩
      · intro o' ho'
        rcases List.mem_cons.mp ho' with rfl | ho''
        · exact hrate_le
        · exact ih2 o' ho''
      · rcases ih3 with heq | ⟨hlt2, o', hfind, hres1⟩
        · rw [heq]
          refine Or.inr ⟨hlt, o, ?_, rfl⟩
          exact List.find?_cons_of_pos _ (by simp [heq])
        · refine Or.inr ⟨lt_trans hlt hlt2, o', ?_, hres1⟩
          rw [List.find?_cons_of_neg]
          · exact hfind
          · simp only [decide_eq_true_eq]
            intro hcon
            exact absurd hcon (ne_of_lt hlt2)
    · have hstep : primaryStep ct acc o = acc := by
        simp [primaryStep, hlt]
      simp only [hstep]
      obtain ⟨ih1, ih2, ih3⟩ := ih acc
      refine ⟨ih1, ?_, ?_⟩
      · intro o' ho'
        rcases List.mem_cons.mp ho' with rfl | ho''
        · exact le_trans (not_lt.mp hlt) ih1
        · exact ih2 o' ho''
      · rcases ih3 with heq | ⟨hlt2, o', hfind, hres1⟩
        · exact Or.inl heq
        · refine Or.inr ⟨hlt2, o', ?_, hres1⟩
          rw [List.find?_cons_of_neg]
          · exact hfind
          · simp only [decide_eq_true_eq]
            intro hcon
            rw [← hcon] at hlt2
            exact hlt hlt2

theorem demand_fold_sum (ct fc : ℚ) :
    ∀ (inputs : List Stack) (d : List (ItemId × ℚ)) (x : ItemId),
      getDA (inputs.foldl (fun d input => setA d input.itemId
          (qadd (getDA d input.itemId 0)
            (qmul (calcRate input.amount ct) fc))) d) x 0
        = getDA d x 0
          + ((inputs.filter (fun i => i.itemId = x)).map
              (fun i => calcRate i.amount ct * fc)).sum := by
  intro inputs
  induction inputs with
  | nil => simp
  | cons i t ih =>
    intro d x
    simp only [List.foldl_cons]
    rw [ih]
    by_cases hx : i.itemId = x
    · rw [List.filter_cons_of_pos (by simp [hx])]
      simp only [List.map_cons, List.sum_cons]
      rw [← hx, getDA_setA_self, qadd_eq, qmul_eq]
      ring
    · rw [List.filter_cons_of_neg (by simp [hx])]
      rw [getDA_setA_ne _ _ _ _ _ (fun h => hx h.symm)]

/-- C1: for a recipe vertex in the condensed topological order, the solver
picks as rate driver the first output achieving the largest per-minute rate
(`amount * 60 / craftingTime`), sets the recipe's facility count to the
accumulated demand on the driver item divided by the driver rate, and adds
`input-amount * (60 / craftingTime) * facilityCount` to every input item's
accumulated demand (other items and the warning list untouched); and in the
concrete scenario (target 10/min of X, recipe consuming 2 Y per craft and
producing 5 X per minute per facility) the pipeline solves facility count 2
for the recipe and accumulated demand 20/min on Y. -/
theorem C1_recipe_vertex_flow :
    (∀ (recipe : Recipe) (rid : RecipeId) (st : FlowState),
      (∃ o ∈ recipe.outputs, 0 < calcRate o.amount recipe.craftingTime) →
      ∃ d : Stack, d ∈ recipe.outputs
        ∧ recipe.outputs.find? (fun o => calcRate o.amount recipe.craftingTime
            = (primarySelect recipe.outputs recipe.craftingTime).2) = some d
        ∧ calcRate d.amount recipe.craftingTime
            = (primarySelect recipe.outputs recipe.craftingTime).2
        ∧ (∀ o ∈ recipe.outputs,
            calcRate o.amount recipe.craftingTime
              ≤ calcRate d.amount recipe.craftingTime)
        ∧ 0 < calcRate d.amount recipe.craftingTime
        ∧ (applyRecipeVertex recipe rid st).recipeFacilityCounts
            = setA st.recipeFacilityCounts rid
                (getDA st.itemDemands d.itemId 0
                  / calcRate d.amount recipe.craftingTime)
        ∧ (∀ x : ItemId,
            getDA (applyRecipeVertex recipe rid st).itemDemands x 0
              = getDA st.itemDemands x 0
                + ((recipe.inputs.filter (fun i => i.itemId = x)).map
                    (fun i => calcRate i.amount recipe.craftingTime
                      * (getDA st.itemDemands d.itemId 0
                          / calcRate d.amount recipe.craftingTime))).sum)
        ∧ (applyRecipeVertex recipe rid st).warnings = st.warnings)
    ∧ c1Flow.toOption = some ⟨[("X", 10), ("Y", 20)], [("R", 2)], []⟩ := by
  constructor
  · intro recipe rid st hpos
    obtain ⟨h1, h2, h3⟩ :=
      primary_fold_spec recipe.craftingTime recipe.outputs (none, 0)
    obtain ⟨o₀, ho₀mem, ho₀pos⟩ := hpos
    have hpos2 : (0 : ℚ)
        < (recipe.outputs.foldl (primaryStep recipe.craftingTime) (none, 0)).2 :=
      lt_of_lt_of_le ho₀pos (h2 o₀ ho₀mem)
    rcases h3 with heq | ⟨hlt, d, hfind, hfst⟩
    · rw [heq] at hpos2
      exact absurd hpos2 (lt_irrefl 0)
    · have hd_mem : d ∈ recipe.outputs := List.mem_of_find?_eq_some hfind
      have hd_rate : calcRate d.amount recipe.craftingTime
          = (primarySelect recipe.outputs recipe.craftingTime).2 := by
        have := List.find?_some hfind
        simpa using this
      have hsel1 : (primarySelect recipe.outputs recipe.craftingTime).1
          = some d.itemId := hfst
      have hselpos : (0 : ℚ)
          < (primarySelect recipe.outputs recipe.craftingTime).2 := hpos2
      have hfc : (if (primarySelect recipe.outputs recipe.craftingTime).2 > 0
          then qdiv (match (primarySelect recipe.outputs recipe.craftingTime).1 with
            | some iid => getDA st.itemDemands iid 0
            | none => 0) (primarySelect recipe.outputs recipe.craftingTime).2
          else 0)
          = getDA st.itemDemands d.itemId 0
              / calcRate d.amount recipe.craftingTime := by
        rw [if_pos hselpos, hsel1, qdiv_eq, hd_rate]
      refine ⟨d, hd_mem, hfind, hd_rate, ?_, ?_, ?_, ?_, ?_⟩
      · intro o ho
        rw [hd_rate]
        exact h2 o ho
      · rw [hd_rate]
        exact hselpos
      · show setA st.recipeFacilityCounts rid _ = _
        rw [hfc]
      · intro x
        show getDA (recipe.inputs.foldl _ st.itemDemands) x 0 = _
        rw [hfc, demand_fold_sum]
      · rfl
  · decide

theorem C1_recipe_vertex_flow_witness :
    (∃ o ∈ c1Recipe.outputs, 0 < calcRate o.amount c1Recipe.craftingTime)
    ∧ (∃ d : Stack, d ∈ c1Recipe.outputs
        ∧ c1Recipe.outputs.find? (fun o => calcRate o.amount c1Recipe.craftingTime
            = (primarySelect c1Recipe.outputs c1Recipe.craftingTime).2) = some d
        ∧ calcRate d.amount c1Recipe.craftingTime
            = (primarySelect c1Recipe.outputs c1Recipe.craftingTime).2
        ∧ (∀ o ∈ c1Recipe.outputs,
            calcRate o.amount c1Recipe.craftingTime
              ≤ calcRate d.amount c1Recipe.craftingTime)
        ∧ 0 < calcRate d.amount c1Recipe.craftingTime
        ∧ (applyRecipeVertex c1Recipe "R" ⟨[("X", 10)], [], []⟩).recipeFacilityCounts
            = setA ([] : List (RecipeId × ℚ)) "R"
                (getDA [("X", (10 : ℚ))] d.itemId 0
                  / calcRate d.amount c1Recipe.craftingTime)
        ∧ (∀ x : ItemId,
            getDA (applyRecipeVertex c1Recipe "R" ⟨[("X", 10)], [], []⟩).itemDemands x 0
              = getDA [("X", (10 : ℚ))] x 0
                + ((c1Recipe.inputs.filter (fun i => i.itemId = x)).map
                    (fun i => calcRate i.amount c1Recipe.craftingTime
                      * (getDA [("X", (10 : ℚ))] d.itemId 0
                          / calcRate d.amount c1Recipe.craftingTime))).sum)
        ∧ (applyRecipeVertex c1Recipe "R" ⟨[("X", 10)], [], []⟩).warnings = []) :=
  ⟨⟨⟨"X", 1⟩, by decide, by decide⟩,
    C1_recipe_vertex_flow.1 c1Recipe "R" ⟨[("X", 10)], [], []⟩
      ⟨⟨"X", 1⟩, by decide, by decide⟩⟩

/-! ## C4: degraded continuation of the SCC solve -/

theorem lookupA_foldl_qmax {α : Type} (f : α → String) (g : α → ℚ) :
    ∀ (l : List α) (base : List (String × ℚ)) (rid : String) (r : ℚ),
      lookupA (l.foldl (fun c p => setA c (f p) (qmax 0 (g p))) base) rid
          = some r →
      0 ≤ r ∨ lookupA base rid = some r := by
  intro l
  induction l with
  | nil => exact fun base rid r h => Or.inr h
  | cons p t ih =>
    intro base rid r h
    simp only [List.foldl_cons] at h
    rcases ih _ _ _ h with hn | hbase
    · exact Or.inl hn
    · by_cases hk : rid = f p
      · rw [hk, lookupA_setA_self] at hbase
        have hr : qmax 0 (g p) = r := Option.some.inj hbase
        rw [← hr, qmax_eq]
        exact Or.inl (le_max_left 0 _)
      · rw [lookupA_setA_ne _ _ _ _ hk] at hbase
        exact Or.inr hbase

theorem sccExternalDemands_ok (scc : SCCInfo) (graph : BipartiteGraph)
    (maps : ProductionMaps) (st : FlowState)
    (hcons : ∀ itemId ∈ scc.items,
      ∀ rid ∈ (lookupA graph.itemConsumedBy itemId).getD [],
        scc.recipes.contains rid = false →
        (lookupA maps.recipeMap rid).isSome = true) :
    ∃ ed, sccExternalDemands scc graph maps st = .ok ed := by
  unfold sccExternalDemands
  refine ((foldlM_ok_exists (fun _ => True) _ scc.items ?_ [] trivial).imp
    (fun ed h => h.1))
  intro ed itemId hmem _
  suffices h : ∃ ed', (do
      let demand ← match lookupA graph.itemConsumedBy itemId with
        | none => pure (0 : ℚ)
        | some consumers =>
          consumers.foldlM
            (fun acc rid =>
              if scc.recipes.contains rid then pure acc
              else do
                let facilityCount := getDA st.recipeFacilityCounts rid 0
                let recipe ← match lookupA maps.recipeMap rid with
                  | some r => Except.ok r
                  | none => Except.error "Internal error: recipe not found"
                match recipe.inputs.find? (fun i => i.itemId = itemId) with
                | some input =>
                  pure (qadd acc (qmul (calcRate input.amount recipe.craftingTime) facilityCount))
                | none => pure acc)
            (0 : ℚ)
      let demand := if graph.targets.contains itemId
        then qadd demand (getDA st.itemDemands itemId 0) else demand
      pure (if demand > 0 then setA ed itemId demand else ed))
      = Except.ok ed' by
    obtain ⟨ed', hed'⟩ := h
    exact ⟨ed', hed', trivial⟩
  cases hl : lookupA graph.itemConsumedBy itemId with
  | none => exact ⟨_, rfl⟩
  | some consumers =>
    have hinner : ∃ tot, consumers.foldlM
        (fun acc rid =>
          if scc.recipes.contains rid then pure acc
          else do
            let facilityCount := getDA st.recipeFacilityCounts rid 0
            let recipe ← match lookupA maps.recipeMap rid with
              | some r => Except.ok r
              | none => Except.error "Internal error: recipe not found"
            match recipe.inputs.find? (fun i => i.itemId = itemId) with
            | some input =>
              pure (qadd acc (qmul (calcRate input.amount recipe.craftingTime) facilityCount))
            | none => pure acc)
        (0 : ℚ) = Except.ok tot := by
      refine ((foldlM_ok_exists (fun _ => True) _ consumers ?_ 0 trivial).imp
        (fun tot h => h.1))
      intro acc rid hrid _
      by_cases hc : scc.recipes.contains rid = true
      · rw [if_pos hc]
        exact ⟨acc, rfl, trivial⟩
      · rw [if_neg hc]
        have hrid' : rid ∈ (lookupA graph.itemConsumedBy itemId).getD [] := by
          rw [hl]; exact hrid
        have hsome := hcons itemId hmem rid hrid' (by simpa using hc)
        cases hrm : lookupA maps.recipeMap rid with
        | none => rw [hrm] at hsome; cases hsome
        | some rec =>
          cases hif : List.find? (fun i => decide (i.itemId = itemId)) rec.inputs with
          | none =>
            refine ⟨acc, ?_, trivial⟩
            simp only [hif, bind, Except.bind, pure, Except.pure]
          | some input =>
            refine ⟨qadd acc (qmul (calcRate input.amount rec.craftingTime)
              (getDA st.recipeFacilityCounts rid 0)), ?_, trivial⟩
            simp only [hif, bind, Except.bind, pure, Except.pure]
    obtain ⟨tot, htot⟩ := hinner
    simp only [bind, Except.bind] at htot ⊢
    rw [htot]
    exact ⟨_, rfl⟩

theorem sccDemandsFold_ok (recipes : List RecipeId) (exIn : List ItemId)
    (maps : ProductionMaps) (counts : List (RecipeId × ℚ))
    (d0 : List (ItemId × ℚ))
    (hrec : ∀ rid ∈ recipes, (lookupA maps.recipeMap rid).isSome = true) :
    ∃ dm, exIn.foldlM
      (fun d inputItemId => do
        let total ← recipes.foldlM
          (fun acc rid => do
            let recipe ← match lookupA maps.recipeMap rid with
              | some r => Except.ok r
              | none => Except.error "Internal error: recipe not found"
            let facilityCount := getDA counts rid 0
            match recipe.inputs.find? (fun i => i.itemId = inputItemId) with
            | some input =>
              pure (qadd acc (qmul (calcRate input.amount recipe.craftingTime) facilityCount))
            | none => pure acc)
          (0 : ℚ)
        pure (if total > 0
          then setA d inputItemId (qadd (getDA d inputItemId 0) total) else d))
      d0 = Except.ok dm := by
  refine ((foldlM_ok_exists (fun _ => True) _ exIn ?_ d0 trivial).imp
    (fun dm h => h.1))
  intro d inputItemId hmem _
  have hinner : ∃ tot, recipes.foldlM
      (fun acc rid => do
        let recipe ← match lookupA maps.recipeMap rid with
          | some r => Except.ok r
          | none => Except.error "Internal error: recipe not found"
        let facilityCount := getDA counts rid 0
        match recipe.inputs.find? (fun i => i.itemId = inputItemId) with
        | some input =>
          pure (qadd acc (qmul (calcRate input.amount recipe.craftingTime) facilityCount))
        | none => pure acc)
      (0 : ℚ) = Except.ok tot := by
    refine ((foldlM_ok_exists (fun _ => True) _ recipes ?_ 0 trivial).imp
      (fun tot h => h.1))
    intro acc rid hrid _
    have hsome := hrec rid hrid
    cases hrm : lookupA maps.recipeMap rid with
    | none => rw [hrm] at hsome; cases hsome
    | some rec =>
      cases hif : List.find? (fun i => decide (i.itemId = inputItemId)) rec.inputs with
      | none =>
        refine ⟨acc, ?_, trivial⟩
        simp only [hif, bind, Except.bind, pure, Except.pure]
      | some input =>
        refine ⟨qadd acc (qmul (calcRate input.amount rec.craftingTime)
          (getDA counts rid 0)), ?_, trivial⟩
        simp only [hif, bind, Except.bind, pure, Except.pure]
  obtain ⟨tot, htot⟩ := hinner
  simp only [bind, Except.bind] at htot ⊢
  rw [htot]
  exact ⟨_, rfl, trivial⟩

/-- C4: under an internally consistent recipe catalog, the SCC solve step
never aborts: it returns ok, and either (no-solution case) it appends the
"Cannot solve SCC" warning and leaves the facility counts untouched, or
(solved case, including solutions with negative entries) it leaves the
warning list untouched while every facility-count entry is either clamped
to a non-negative value or carried over unchanged — negative solution
entries are silently clamped to zero, with no warning reported. -/
theorem C4_scc_degraded_continuation (scc : SCCInfo) (graph : BipartiteGraph)
    (maps : ProductionMaps) (st : FlowState)
    (hrec : ∀ rid ∈ scc.recipes, (lookupA maps.recipeMap rid).isSome = true)
    (hcons : ∀ itemId ∈ scc.items,
      ∀ rid ∈ (lookupA graph.itemConsumedBy itemId).getD [],
        scc.recipes.contains rid = false →
        (lookupA maps.recipeMap rid).isSome = true) :
    ∃ st' : FlowState, solveSCCFlow scc graph maps st = .ok st'
      ∧ ((st'.warnings = st.warnings
            ∧ ∀ rid r, lookupA st'.recipeFacilityCounts rid = some r →
                0 ≤ r ∨ lookupA st.recipeFacilityCounts rid = some r)
        ∨ (st'.warnings = st.warnings ++ ["Cannot solve SCC " ++ scc.id]
            ∧ st'.recipeFacilityCounts = st.recipeFacilityCounts)) := by
  obtain ⟨ed, hed⟩ := sccExternalDemands_ok scc graph maps st hcons
  obtain ⟨rl, hrl⟩ := mapE_ok_of_forall
    (fun rid => match lookupA maps.recipeMap rid with
      | some r => Except.ok r
      | none => Except.error "Internal error: recipe not found")
    scc.recipes
    (fun rid hrid => by
      have hsome := hrec rid hrid
      cases hrm : lookupA maps.recipeMap rid with
      | none => rw [hrm] at hsome; cases hsome
      | some rec => exact ⟨rec, by simp only [hrm]⟩)
  unfold solveSCCFlow
  rw [hed]
  simp only [bind, Except.bind, pure, Except.pure]
  by_cases hemp : ed.isEmpty = true
  · rw [if_pos hemp]
    exact ⟨st, rfl, Or.inl ⟨rfl, fun rid r h => Or.inr h⟩⟩
  · rw [if_neg hemp]
    rw [hrl]
    simp only []
    by_cases hmn : rl.length = 0 ∨ scc.items.length = 0
    · rw [if_pos hmn]
      exact ⟨st, rfl, Or.inl ⟨rfl, fun rid r h => Or.inr h⟩⟩
    · rw [if_neg hmn]
      cases hsol : solveLinearSystem (sccMatrix scc.items rl)
          (scc.items.map (fun itemId => getDA ed itemId 0)) with
      | none => exact ⟨_, rfl, Or.inr ⟨rfl, rfl⟩⟩
      | some solution =>
        obtain ⟨dm, hdm⟩ := sccDemandsFold_ok scc.recipes scc.externalInputs maps
          (List.foldl (fun c p => setA c p.2.id (qmax 0 (solution.getD p.1 0)))
            st.recipeFacilityCounts rl.enum)
          st.itemDemands hrec
        simp only [bind, Except.bind, pure, Except.pure] at hdm ⊢
        rw [hdm]
        refine ⟨_, rfl, Or.inl ⟨rfl, ?_⟩⟩
        intro rid r h
        exact lookupA_foldl_qmax (fun p => p.2.id)
          (fun p => solution.getD p.1 0) rl.enum st.recipeFacilityCounts rid r h

/-- Counterexample to C4 as frozen: in the two-recipe SCC scenario the
linear system's unique solution is negative in both components, yet the
solve returns ok with both facility counts clamped to 0 and an *empty*
warning list — no warning is reported for the negative-count clamping
(a warning is only emitted when the system has no solution at all). -/
theorem C4_counterexample :
    ((sccExternalDemands negScc negGraph negMaps negSt).toOption.map (fun ed =>
        solveLinearSystem (sccMatrix negScc.items [negR1, negR2])
          (negScc.items.map (fun i => getDA ed i 0))))
      = some (some [Rat.divInt (-10) 3, Rat.divInt (-20) 3])
    ∧ (solveSCCFlow negScc negGraph negMaps negSt).toOption
        = some ⟨[("X", 10)], [("R1", 0), ("R2", 0)], []⟩ :=
  ⟨by decide, by decide⟩

theorem C4_scc_degraded_continuation_witness :
    (∀ rid ∈ negScc.recipes, (lookupA negMaps.recipeMap rid).isSome = true)
    ∧ (∀ itemId ∈ negScc.items,
        ∀ rid ∈ (lookupA negGraph.itemConsumedBy itemId).getD [],
          negScc.recipes.contains rid = false →
          (lookupA negMaps.recipeMap rid).isSome = true)
    ∧ (∃ st' : FlowState, solveSCCFlow negScc negGraph negMaps negSt = .ok st'
        ∧ ((st'.warnings = negSt.warnings
              ∧ ∀ rid r, lookupA st'.recipeFacilityCounts rid = some r →
                  0 ≤ r ∨ lookupA negSt.recipeFacilityCounts rid = some r)
          ∨ (st'.warnings = negSt.warnings ++ ["Cannot solve SCC " ++ negScc.id]
              ∧ st'.recipeFacilityCounts = negSt.recipeFacilityCounts))) :=
  ⟨by decide, by decide,
    C4_scc_degraded_continuation negScc negGraph negMaps negSt (by decide) (by decide)⟩

/-! ## C3: non-negativity of facility counts and demands -/

theorem calcRate_nonneg (a ct : ℚ) (ha : 0 ≤ a) (hct : 0 ≤ ct) :
    0 ≤ calcRate a ct := by
  unfold calcRate
  rw [qdiv_eq, qmul_eq]
  exact div_nonneg (mul_nonneg ha (by norm_num)) hct

theorem demand_fold_nonneg (inputs : List Stack) (ct fc : ℚ)
    (hin : ∀ i ∈ inputs, 0 ≤ calcRate i.amount ct) (hfc : 0 ≤ fc)
    (d : List (ItemId × ℚ)) (hd : NonnegEntries d) :
    NonnegEntries (inputs.foldl (fun d input => setA d input.itemId
      (qadd (getDA d input.itemId 0)
        (qmul (calcRate input.amount ct) fc))) d) :=
  foldl_preserve NonnegEntries _ inputs
    (fun d i hi hd' => nonneg_setA hd' (by
      rw [qadd_eq, qmul_eq]
      have h1 := nonneg_getDA hd' i.itemId
      have h2 := hin i hi
      have h3 := mul_nonneg h2 hfc
      linarith)) d hd

theorem applyRecipeVertex_nonneg (recipe : Recipe) (rid : RecipeId)
    (st : FlowState)
    (hin : ∀ i ∈ recipe.inputs, 0 ≤ i.amount) (hct : 0 ≤ recipe.craftingTime)
    (hd : NonnegEntries st.itemDemands)
    (hc : NonnegEntries st.recipeFacilityCounts) :
    NonnegEntries (applyRecipeVertex recipe rid st).itemDemands
      ∧ NonnegEntries (applyRecipeVertex recipe rid st).recipeFacilityCounts := by
  have hfc : 0 ≤ (if (primarySelect recipe.outputs recipe.craftingTime).2 > 0
      then qdiv (match (primarySelect recipe.outputs recipe.craftingTime).1 with
        | some iid => getDA st.itemDemands iid 0
        | none => 0) (primarySelect recipe.outputs recipe.craftingTime).2
      else 0) := by
    split
    · next hpos =>
      rw [qdiv_eq]
      refine div_nonneg ?_ (le_of_lt hpos)
      split
      · exact nonneg_getDA hd _
      · exact le_rfl
    · exact le_rfl
  constructor
  · exact demand_fold_nonneg recipe.inputs recipe.craftingTime _
      (fun i hi => calcRate_nonneg _ _ (hin i hi) hct) hfc st.itemDemands hd
  · exact nonneg_setA hc hfc

theorem solveSCCFlow_preserves (scc : SCCInfo) (graph : BipartiteGraph)
    (maps : ProductionMaps) (st st' : FlowState)
    (h : solveSCCFlow scc graph maps st = .ok st')
    (hd : NonnegEntries st.itemDemands)
    (hc : NonnegEntries st.recipeFacilityCounts) :
    NonnegEntries st'.itemDemands ∧ NonnegEntries st'.recipeFacilityCounts := by
  simp only [solveSCCFlow, bind, Except.bind, pure, Except.pure] at h
  split at h
  · exact Except.noConfusion h
  · split at h
    · cases h
      exact ⟨hd, hc⟩
    · split at h
      · exact Except.noConfusion h
      next rl hrl =>
        split at h
        · cases h
          exact ⟨hd, hc⟩
        · split at h
          · cases h
            exact ⟨hd, hc⟩
          next solution hsol =>
            split at h
            · exact Except.noConfusion h
            next dm heq =>
              cases h
              constructor
              · refine foldlM_ok_preserve NonnegEntries _ scc.externalInputs
                  ?_ st.itemDemands dm hd heq
                intro d i hi hd' d' hstep
                simp only [bind, Except.bind, pure, Except.pure] at hstep
                split at hstep
                · exact Except.noConfusion hstep
                next tot htot =>
                  cases hstep
                  split
                  · next hpos =>
                    refine nonneg_setA hd' ?_
                    rw [qadd_eq]
                    have := nonneg_getDA hd' i
                    linarith
                  · exact hd'
              · exact foldl_preserve NonnegEntries _ rl.enum
                  (fun c p hp hcc => nonneg_setA hcc (by
                    rw [qmax_eq]; exact le_max_left 0 _))
                  st.recipeFacilityCounts hc

/-- C3: over a well-formed catalog (positive crafting durations,
non-negative input/output amounts) and positive target rates, every
facility-count entry and every demand entry of a successful demand-flow
solve is non-negative. -/
theorem C3_nonneg_invariant (graph : BipartiteGraph)
    (condensedOrder : List CondensedNode) (targetRates : List (ItemId × ℚ))
    (maps : ProductionMaps) (st' : FlowState)
    (hg : RecipesWF (graph.recipeNodes.map (fun p => p.2.recipe)))
    (ht : ∀ p ∈ targetRates, 0 < p.2)
    (h : calculateFlows graph condensedOrder targetRates maps = .ok st') :
    NonnegEntries st'.recipeFacilityCounts ∧ NonnegEntries st'.itemDemands := by
  unfold calculateFlows at h
  have h0d : NonnegEntries (targetRates.foldl (fun d p => setA d p.1 p.2) []) :=
    foldl_preserve NonnegEntries _ targetRates
      (fun d p hp hdd => nonneg_setA hdd (le_of_lt (ht p hp))) []
      (fun p hp => absurd hp (List.not_mem_nil p))
  have key := foldlM_ok_preserve
    (fun s : FlowState =>
      NonnegEntries s.itemDemands ∧ NonnegEntries s.recipeFacilityCounts)
    (processCondensedNode graph maps) condensedOrder.reverse
    ?_ _ st' ⟨h0d, fun p hp => absurd hp (List.not_mem_nil p)⟩ h
  · exact ⟨key.2, key.1⟩
  · intro s node hnode hs s' hstep
    cases node with
    | scc scc => exact solveSCCFlow_preserves scc graph maps s s' hstep hs.1 hs.2
    | recipe rid =>
      simp only [processCondensedNode] at hstep
      split at hstep
      · exact Except.noConfusion hstep
      next rd hlook =>
        cases hstep
        have hmem : rd.recipe ∈ graph.recipeNodes.map (fun p => p.2.recipe) :=
          List.mem_map_of_mem _ (lookupA_mem hlook)
        obtain ⟨hctpos, hins, houts⟩ := hg _ hmem
        exact applyRecipeVertex_nonneg rd.recipe rid s hins (le_of_lt hctpos)
          hs.1 hs.2
    | item iid =>
      simp only [processCondensedNode] at hstep
      cases hstep
      exact hs

theorem C3_nonneg_invariant_witness :
    RecipesWF (c1Graph.recipeNodes.map (fun p => p.2.recipe))
    ∧ (∀ p ∈ [(("X" : ItemId), (10 : ℚ))], 0 < p.2)
    ∧ calculateFlows c1Graph
        [.item "Y", .recipe "R", .item "X"] [("X", 10)] c1Maps
        = .ok ⟨[("X", 10), ("Y", 20)], [("R", 2)], []⟩
    ∧ (NonnegEntries
        ((⟨[("X", 10), ("Y", 20)], [("R", 2)], []⟩ : FlowState).recipeFacilityCounts)
      ∧ NonnegEntries
        ((⟨[("X", 10), ("Y", 20)], [("R", 2)], []⟩ : FlowState).itemDemands)) :=
  ⟨by unfold RecipesWF; decide, by decide, by rfl,
    C3_nonneg_invariant c1Graph [.item "Y", .recipe "R", .item "X"]
      [("X", 10)] c1Maps ⟨[("X", 10), ("Y", 20)], [("R", 2)], []⟩
      (by unfold RecipesWF; decide) (by decide) (by rfl)⟩

/-! ## C7: termination of the tree assembler -/

theorem filter_length_mono {α : Type} (p q : α → Bool)
    (hpq : ∀ x, q x = true → p x = true) :
    ∀ l : List α, (l.filter q).length ≤ (l.filter p).length := by
  intro l
  induction l with
  | nil => simp
  | cons a t ih =>
    by_cases hqa : q a = true
    · rw [List.filter_cons_of_pos hqa, List.filter_cons_of_pos (hpq a hqa)]
      simpa using ih
    · rw [List.filter_cons_of_neg (by simpa using hqa)]
      by_cases hpa : p a = true
      · rw [List.filter_cons_of_pos hpa]
        exact le_trans ih (Nat.le_succ _)
      · rw [List.filter_cons_of_neg (by simpa using hpa)]
        exact ih

theorem filter_length_lt {α : Type} (p q : α → Bool)
    (hpq : ∀ x, q x = true → p x = true) :
    ∀ (l : List α) (i : α), i ∈ l → p i = true → q i = false →
      (l.filter q).length < (l.filter p).length := by
  intro l
  induction l with
  | nil => intro i hi _ _; cases hi
  | cons a t ih =>
    intro i hi hpi hqi
    rcases List.mem_cons.mp hi with rfl | hit
    · rw [List.filter_cons_of_neg (by simp [hqi]), List.filter_cons_of_pos hpi]
      simp only [List.length_cons]
      exact Nat.lt_succ_of_le (filter_length_mono p q hpq t)
    · by_cases hqa : q a = true
      · rw [List.filter_cons_of_pos hqa, List.filter_cons_of_pos (hpq a hqa)]
        simp only [List.length_cons]
        exact Nat.succ_lt_succ (ih i hit hpi hqi)
      · rw [List.filter_cons_of_neg (by simpa using hqa)]
        by_cases hpa : p a = true
        · rw [List.filter_cons_of_pos hpa]
          exact Nat.lt_succ_of_lt (ih i hit hpi hqi)
        · rw [List.filter_cons_of_neg (by simpa using hpa)]
          exact ih i hit hpi hqi

theorem unvisitedCount_insertS_lt (maps : ProductionMaps) (vp : List ItemId)
    (key : ItemId) (hmem : key ∈ maps.itemMap.map Prod.fst)
    (hnvis : vp.contains key = false) :
    unvisitedCount maps (insertS vp key) < unvisitedCount maps vp := by
  unfold unvisitedCount insertS
  rw [if_neg (fun hc => by rw [hnvis] at hc; cases hc)]
  refine filter_length_lt _ _ ?_ _ key hmem ?_ ?_
  · intro x hq
    by_contra hc
    simp at hq hc
    exact hq.1 hc
  · simpa using hnvis
  · simp

theorem item_err_ne_fuelMsg (iid : String) :
    ("Item" ++ " not found: " ++ iid) ≠ fuelMsg := by
  intro hcon
  have hlen := congrArg String.length hcon
  rw [String.length_append, String.length_append] at hlen
  have h1 : ("Item" : String).length = 4 := rfl
  have h2 : (" not found: " : String).length = 12 := rfl
  have h3 : fuelMsg.length = 14 := rfl
  omega

theorem buildNode_fuel (graph : BipartiteGraph) (flowData : FlowState)
    (maps : ProductionMaps) :
    ∀ (fuel : Nat) (visitedPath : List ItemId) (itemId : ItemId)
      (isDirectTarget : Bool) (parentDemand : Option ℚ),
      unvisitedCount maps visitedPath < fuel →
      buildNode graph flowData maps fuel itemId visitedPath isDirectTarget
        parentDemand ≠ .error fuelMsg := by
  intro fuel
  induction fuel with
  | zero => intro vp iid b pd h; exact absurd h (Nat.not_lt_zero _)
  | succ f ih =>
    intro vp iid b pd h hcontra
    simp only [buildNode, bind, Except.bind, pure, Except.pure] at hcontra
    split at hcontra
    next e heq =>
      injection hcontra with he
      cases hlk : lookupA maps.itemMap iid with
      | some v =>
        simp only [getOrThrow, hlk] at heq
        exact Except.noConfusion heq
      | none =>
        simp only [getOrThrow, hlk] at heq
        injection heq with he2
        exact item_err_ne_fuelMsg iid (he2.trans he)
    next item heq =>
      split at hcontra
      · exact Except.noConfusion hcontra
      next hnvis =>
        split at hcontra
        · exact Except.noConfusion hcontra
        next itemNode hlkN =>
          split at hcontra
          · exact Except.noConfusion hcontra
          next hraw =>
            split at hcontra
            · exact Except.noConfusion hcontra
            next prid hlkP =>
              split at hcontra
              next rd heqR =>
                split at hcontra
                next err heqE =>
                  injection hcontra with he3
                  subst he3
                  have hkey : iid ∈ maps.itemMap.map Prod.fst := by
                    cases hlk2 : lookupA maps.itemMap iid with
                    | none =>
                      simp only [getOrThrow, hlk2] at heq
                      exact Except.noConfusion heq
                    | some v => exact keys_mem_of_lookupA hlk2
                  have hdec := unvisitedCount_insertS_lt maps vp iid hkey
                    (by simpa using hnvis)
                  refine mapE_ne_error _ fuelMsg rd.recipe.inputs ?_ heqE
                  intro input hin
                  exact ih (insertS vp iid) input.itemId false _ (by omega)
                next deps heqD =>
                  cases pd with
                  | some dd => exact Except.noConfusion hcontra
                  | none =>
                    repeat' split at hcontra
                    all_goals
                      first
                        | exact Except.noConfusion hcontra
                        | (injection hcontra with he5
                           exact absurd he5 (by decide))
              next hx heqR2 =>
                injection hcontra with he2
                exact absurd he2 (by decide)

/-- C7: the tree assembler's recursive node construction terminates — with
fuel exceeding the number of catalog items not yet on the expansion path,
`buildNode` never runs out of fuel (the path strictly grows by one catalog
item per descent, and sibling branches each receive their own copy of the
path); and the moment an item already on the visited path is reached, a
terminal cycle-placeholder node carrying that item's identifier is returned
instead of descending again. -/
theorem C7_tree_assembler_termination :
    (∀ (graph : BipartiteGraph) (flowData : FlowState) (maps : ProductionMaps)
      (fuel : Nat) (visitedPath : List ItemId) (itemId : ItemId)
      (isDirectTarget : Bool) (parentDemand : Option ℚ),
      unvisitedCount maps visitedPath < fuel →
      buildNode graph flowData maps fuel itemId visitedPath isDirectTarget
        parentDemand ≠ .error fuelMsg)
    ∧ (∀ (graph : BipartiteGraph) (flowData : FlowState) (maps : ProductionMaps)
      (fuel : Nat) (visitedPath : List ItemId) (itemId : ItemId) (item : Item)
      (isDirectTarget : Bool) (parentDemand : Option ℚ),
      lookupA maps.itemMap itemId = some item →
      visitedPath.contains itemId = true →
      buildNode graph flowData maps (fuel + 1) itemId visitedPath
        isDirectTarget parentDemand
        = .ok (.mk item
            (parentDemand.getD (getDA flowData.itemDemands itemId 0))
            none none 0 false false [] true (some itemId))) := by
  constructor
  · exact fun graph flowData maps => buildNode_fuel graph flowData maps
  · intro graph flowData maps fuel vp iid item b pd hlk hvis
    have hm : iid ∈ vp := by simpa using hvis
    simp [buildNode, getOrThrow, hlk, hm, bind, Except.bind, pure, Except.pure]

theorem C7_tree_assembler_termination_witness :
    (unvisitedCount c1Maps [] < 3
      ∧ buildNode c1Graph c1FlowData c1Maps 3 "X" [] true (some 10)
          ≠ .error fuelMsg)
    ∧ (lookupA c1Maps.itemMap "X" = some ⟨"X", 1⟩
      ∧ (["X"] : List ItemId).contains "X" = true
      ∧ buildNode c1Graph c1FlowData c1Maps (1 + 1) "X" ["X"] false none
          = .ok (.mk ⟨"X", 1⟩
              ((none : Option ℚ).getD (getDA c1FlowData.itemDemands "X" 0))
              none none 0 false false [] true (some "X"))) :=
  ⟨⟨by decide,
    C7_tree_assembler_termination.1 c1Graph c1FlowData c1Maps 3 [] "X" true
      (some 10) (by decide)⟩,
   ⟨by decide, by decide,
    C7_tree_assembler_termination.2 c1Graph c1FlowData c1Maps 1 ["X"] "X"
      ⟨"X", 1⟩ false none (by decide) (by decide)⟩⟩

/-! ## C8: recipe selection in the graph builder -/

theorem contains_insertS_of {α : Type} [DecidableEq α] (l : List α) (x k : α)
    (hk : l.contains k = true) : (insertS l x).contains k = true := by
  unfold insertS
  split
  · exact hk
  · have hm : k ∈ l := by simpa using hk
    simp [hm]

theorem contains_insertS_self {α : Type} [DecidableEq α] (l : List α) (x : α) :
    (insertS l x).contains x = true := by
  unfold insertS
  split
  · next hc => exact hc
  · simp

theorem traverse_preserves (maps : ProductionMaps)
    (ro : List (ItemId × RecipeId)) (sel : RecipeSelector)
    (mrm frm : List ItemId) :
    ∀ (fuel : Nat) (itemId : ItemId) (st st' : BuildState),
      traverse maps ro sel mrm frm fuel itemId st = .ok st' →
      (∀ k, st.visitedItems.contains k = true →
        st'.visitedItems.contains k = true)
      ∧ (∀ k rid, st.visitedItems.contains k = true →
          lookupA st.graph.itemProducedBy k = some rid →
          lookupA st'.graph.itemProducedBy k = some rid) := by
  intro fuel
  induction fuel with
  | zero => intro iid st st' h; exact Except.noConfusion h
  | succ f ih =>
    intro iid st st' h
    simp only [traverse] at h
    split at h
    · cases h
      exact ⟨fun k hk => hk, fun k rid _ hl => hl⟩
    next hnv =>
      split at h
      · exact Except.noConfusion h
      next item heqI =>
        split at h
        · cases h
          exact ⟨fun k hk => contains_insertS_of _ _ _ hk,
            fun k rid _ hl => hl⟩
        next hraw =>
          split at h
          · cases h
            exact ⟨fun k hk => contains_insertS_of _ _ _ hk,
              fun k rid _ hl => hl⟩
          next hne =>
            split at h
            · exact Except.noConfusion h
            next selectedRecipe heqS =>
              split at h
              · exact Except.noConfusion h
              next facility heqF =>
                have hiid : st.visitedItems.contains iid = false := by
                  simpa using hnv
                have key := foldlM_ok_preserve
                  (fun s : BuildState =>
                    (∀ k, st.visitedItems.contains k = true →
                      s.visitedItems.contains k = true)
                    ∧ (∀ k rid, st.visitedItems.contains k = true →
                        lookupA st.graph.itemProducedBy k = some rid →
                        lookupA s.graph.itemProducedBy k = some rid))
                  _ selectedRecipe.inputs
                  ?_ _ st' ⟨?_, ?_⟩ h
                · exact key
                · intro s input hmem hs s' hstep
                  obtain ⟨mono, pres⟩ := ih input.itemId _ s' hstep
                  refine ⟨fun k hk => mono k (hs.1 k hk), ?_⟩
                  intro k rid hk hl
                  exact pres k rid (hs.1 k hk) (hs.2 k rid hk hl)
                · intro k hk
                  exact contains_insertS_of _ _ _ hk
                · intro k rid hk hl
                  have hkne : k ≠ iid := by
                    intro hcon
                    rw [hcon] at hk
                    rw [hk] at hiid
                    cases hiid
                  rw [lookupA_setA_ne _ _ _ _ hkne]
                  split
                  · exact hl
                  · exact hl

/-- C8: when the graph builder visits an unvisited, non-raw item with at
least one candidate recipe, it selects the override recipe when an override
entry exists for the item — failing with an error naming the unknown
*override recipe id* (not the item) — and otherwise selects the result of
the selection policy applied to the candidate recipes; the policy receives
only a singleton set containing the item currently being visited, not the
path of items visited so far on the current descent. -/
theorem C8_recipe_selection (maps : ProductionMaps)
    (ro : List (ItemId × RecipeId)) (sel : RecipeSelector)
    (fuel : Nat) (itemId : ItemId) (st : BuildState) (item : Item)
    (hnv : st.visitedItems.contains itemId = false)
    (hitem : lookupA maps.itemMap itemId = some item)
    (hne : ((maps.recipeMap.map Prod.snd).filter
        (fun r => r.outputs.any (fun o => o.itemId = itemId))).isEmpty
      = false) :
    (∀ rid, lookupA ro itemId = some rid →
      lookupA maps.recipeMap rid = none →
      traverse maps ro sel [] [] (fuel + 1) itemId st
        = .error ("Override recipe" ++ " not found: " ++ rid))
    ∧ (∀ rid r, lookupA ro itemId = some rid →
        lookupA maps.recipeMap rid = some r →
        ∀ st', traverse maps ro sel [] [] (fuel + 1) itemId st = .ok st' →
          lookupA st'.graph.itemProducedBy itemId = some r.id)
    ∧ (∀ r, lookupA ro itemId = none →
        sel ((maps.recipeMap.map Prod.snd).filter
          (fun r => r.outputs.any (fun o => o.itemId = itemId))) [itemId]
          = some r →
        ∀ st', traverse maps ro sel [] [] (fuel + 1) itemId st = .ok st' →
          lookupA st'.graph.itemProducedBy itemId = some r.id) := by
  have hnm : itemId ∉ st.visitedItems := by simpa using hnv
  refine ⟨?_, ?_, ?_⟩
  · intro rid hov hrid
    simp [traverse, getOrThrow, hnm, hitem, hov, hrid, hne]
  · intro rid r hov hr st' htr
    simp [traverse, getOrThrow, hnm, hitem, hov, hr, hne] at htr
    split at htr
    next e heqF => exact Except.noConfusion htr
    next facility heqF =>
      have key := foldlM_ok_preserve
        (fun s : BuildState => s.visitedItems.contains itemId = true
          ∧ lookupA s.graph.itemProducedBy itemId = some r.id)
        _ r.inputs ?_ _ st'
        ⟨contains_insertS_self _ _, by rw [lookupA_setA_self]⟩ htr
      · exact key.2
      · intro s input hmem hs s' hstep
        obtain ⟨mono, pres⟩ := traverse_preserves maps ro sel [] []
          fuel input.itemId _ s' hstep
        exact ⟨mono itemId hs.1, pres itemId r.id hs.1 hs.2⟩
  · intro r hov hsel st' htr
    simp [traverse, getOrThrow, hnm, hitem, hov, hsel, hne] at htr
    split at htr
    next e heqF => exact Except.noConfusion htr
    next facility heqF =>
      have key := foldlM_ok_preserve
        (fun s : BuildState => s.visitedItems.contains itemId = true
          ∧ lookupA s.graph.itemProducedBy itemId = some r.id)
        _ r.inputs ?_ _ st'
        ⟨contains_insertS_self _ _, by rw [lookupA_setA_self]⟩ htr
      · exact key.2
      · intro s input hmem hs s' hstep
        obtain ⟨mono, pres⟩ := traverse_preserves maps ro sel [] []
          fuel input.itemId _ s' hstep
        exact ⟨mono itemId hs.1, pres itemId r.id hs.1 hs.2⟩

/-- Counterexample to C8 as frozen: on the descent P → C (with a selection
policy that answers r1 exactly when P is on the path it receives), the
builder records r2 as C's producer — the policy received only the singleton
set containing C, not the visited path, which would have produced r1; and
the unknown-override error message names the override recipe id r9, not the
item C. -/
theorem C8_counterexample :
    ((buildBipartiteGraph [⟨"P", 10⟩] p8Maps [] p8Sel [] []).toOption.map
        (fun g => lookupA g.itemProducedBy "C")) = some (some "r2")
    ∧ ((p8Sel ((p8Maps.recipeMap.map Prod.snd).filter
        (fun r => r.outputs.any (fun o => o.itemId = "C"))) ["P", "C"]).map
          (fun r => r.id)) = some "r1"
    ∧ buildBipartiteGraph [⟨"P", 10⟩] p8Maps [("C", "r9")] p8Sel [] []
        = .error ("Override recipe" ++ " not found: " ++ "r9")
    ∧ ¬ ("C".data <:+: ("Override recipe" ++ " not found: " ++ "r9").data) :=
  ⟨by decide, by decide, by rfl, by decide⟩

theorem C8_recipe_selection_witness :
    ((⟨emptyGraph, []⟩ : BuildState).visitedItems.contains "C" = false
      ∧ lookupA p8Maps.itemMap "C" = some ⟨"C", 1⟩
      ∧ ((p8Maps.recipeMap.map Prod.snd).filter
          (fun r => r.outputs.any (fun o => o.itemId = "C"))).isEmpty = false)
    ∧ (∀ rid, lookupA [(("C" : ItemId), ("r9" : RecipeId))] "C" = some rid →
        lookupA p8Maps.recipeMap rid = none →
        traverse p8Maps [("C", "r9")] p8Sel [] [] (0 + 1) "C" ⟨emptyGraph, []⟩
          = .error ("Override recipe" ++ " not found: " ++ rid)) :=
  ⟨⟨by decide, by decide, by decide⟩,
    (C8_recipe_selection p8Maps [("C", "r9")] p8Sel 0 "C" ⟨emptyGraph, []⟩
      ⟨"C", 1⟩ (by decide) (by decide) (by decide)).1⟩

end EndfieldCalc
